import Mathlib

/-!
Verification development for the layered configuration-resolution engine of
workload-automation (`wlauto/core/configuration/configuration.py`,
`wlauto/core/configuration/configuration_points.py`,
`wlauto/core/configuration/parsers.py`).

Python values flowing through configuration points are modelled by the
`Value` type below; Python `None` is modelled by `Option Value` (an attribute
holding `None` is identified with an absent attribute, which is faithful to
the code because `getattr(obj, name, None)` and `merge_config_values(None, v)`
treat the two identically).  `ConfigError` is modelled by the structured
error type `CErr`, one constructor per distinct error message of the source.
-/

namespace WA

/-- Values handled by configuration points: strings, integers, booleans,
lists of strings, string mappings, toggle sets (lists of names optionally
prefixed with the negation marker `~`), and `RebootPolicy` objects
(configuration.py lines 52-109, represented by their `policy` string) —
the one non-POD value a registered kind produces. -/
inductive Value where
  | str (s : String)
  | int (n : Int)
  | bool (b : Bool)
  | list (l : List String)
  | dict (m : List (String × String))
  | toggles (ts : List String)
  | rebootPolicy (policy : String)
deriving DecidableEq, Repr

/-- Structured counterpart of `ConfigError` (and the `RuntimeError` raised by
`JobGenerator.update_enabled_instruments`): one constructor per distinct
error message in the source, carrying the data interpolated into it. -/
inductive CErr where
  | noValuesMandatory (param owner : String)
  | badValue (param : String)
  | noValueMandatory (param owner : String)
  | invalidValue (param owner : String)
  | constraintViolation (param owner : String)
  | unknownConfig (cfgname pname : String)
  | invalidEntries (cfgname : String) (names : List String)
  | unknownRuntimeParameter (pname : String)
  | maxFreqLessThanMin (core : String)
  | freqNotBetween (core : String)
  | duplicateEntry (aliases : List String)
  | conflictingEntries (names : List String)
  | duplicateId (kind id : String)
  | idContainsDash (kind id : String)
  | reservedGlobalId (kind : String)
  | invalidLeftoverEntries (id : String) (names : List String)
  | updateAfterRead
deriving DecidableEq, Repr

/-- Association-list lookup (first binding wins), modelling Python dict /
attribute access. -/
def lookupA {α : Type} : List (String × α) → String → Option α
  | [], _ => none
  | (k, v) :: t, n => if k = n then some v else lookupA t n

/-- Association-list insert-or-overwrite in place, modelling Python
`dict.__setitem__` / `setattr` (keeps the position of an existing key). -/
def insertA {α : Type} : List (String × α) → String → α → List (String × α)
  | [], n, v => [(n, v)]
  | (k, w) :: t, n, v => if k = n then (n, v) :: t else (k, w) :: insertA t n v

/-- Association-list removal, modelling Python `dict.pop` / deleting an
attribute (storing `None` is modelled as absence); Python dict keys and
object attributes are unique, so removing every binding of the key is
faithful. -/
def eraseA {α : Type} (l : List (String × α)) (n : String) : List (String × α) :=
  l.filter (fun p => p.1 ≠ n)

theorem lookupA_eraseA_self {α : Type} (l : List (String × α)) (n : String) :
    lookupA (eraseA l n) n = none := by
  induction l with
  | nil => rfl
  | cons hd t ih =>
    obtain ⟨k, w⟩ := hd
    by_cases hk : k = n
    · simpa [eraseA, hk] using ih
    · simpa [eraseA, lookupA, hk] using ih

theorem lookupA_eraseA_other {α : Type} (l : List (String × α)) (n m : String)
    (h : m ≠ n) : lookupA (eraseA l n) m = lookupA l m := by
  induction l with
  | nil => rfl
  | cons hd t ih =>
    obtain ⟨k, w⟩ := hd
    by_cases hk : k = n
    · subst hk
      have h1 : eraseA ((k, w) :: t) k = eraseA t k := by
        simp [eraseA, List.filter_cons]
      rw [h1, ih]
      simp [lookupA, Ne.symm h]
    · have h1 : eraseA ((k, w) :: t) n = (k, w) :: eraseA t n := by
        simp [eraseA, List.filter_cons, hk]
      rw [h1]
      by_cases hm : k = m
      · simp [lookupA, hm]
      · simpa [lookupA, hm] using ih

theorem lookupA_insertA_self {α : Type} (l : List (String × α)) (n : String) (v : α) :
    lookupA (insertA l n v) n = some v := by
  induction l with
  | nil => simp [insertA, lookupA]
  | cons h t ih =>
    obtain ⟨k, w⟩ := h
    by_cases hk : k = n
    · simp [insertA, lookupA, hk]
    · simp [insertA, lookupA, hk, ih]

theorem lookupA_insertA_other {α : Type} (l : List (String × α)) (n m : String) (v : α)
    (h : m ≠ n) : lookupA (insertA l n v) m = lookupA l m := by
  induction l with
  | nil => simp [insertA, lookupA, Ne.symm h]
  | cons hd t ih =>
    obtain ⟨k, w⟩ := hd
    by_cases hk : k = n
    · subst hk
      simp [insertA, lookupA, Ne.symm h]
    · simp only [insertA, if_neg hk, lookupA]
      by_cases hm : k = m
      · simp [hm]
      · simp [hm, ih]

/-!  ### merge_config_values

`wlauto.utils.misc.merge_config_values` is imported by `configuration.py` but
its module is not part of the sources under review.

Modelled from the spec: `merge_config_values` combines an existing and a new
value "per type-specific merge rule (lists concatenate with de-duplication by
trailing-override precedence; mappings update key-wise; ToggleSets use the
ToggleSet merge rule ...)"; merging with an absent (`None`) old value yields
the new value.  On any other combination the new value replaces the old. -/

/-- Character containment in a string (Python `c in s` for a one-character
needle), via the underlying character list so that proofs can compute. -/
def strContains (s : String) (c : Char) : Bool :=
  s.data.contains c

/-- The first list is a prefix of the second (character lists). -/
def charsPre : List Char → List Char → Bool
  | [], _ => true
  | _ :: _, [] => false
  | a :: pt, b :: lt => a == b && charsPre pt lt

/-- The needle occurs inside the list (helper for `strHasSub`). -/
def charsSub (needle : List Char) : List Char → Bool
  | [] => charsPre needle []
  | b :: t => charsPre needle (b :: t) || charsSub needle t

/-- Substring containment (Python `needle in hay` on strings), over the
underlying character lists so that proofs can compute. -/
def strHasSub (hay needle : String) : Bool :=
  charsSub needle.data hay.data

/-- Strip a leading `~` negation marker from a toggle entry. -/
def stripTilde (t : String) : String :=
  match t.data with
  | '~' :: rest => String.mk rest
  | _ => t

/-- Whether a toggle set mentions a name, in either polarity. -/
def togMentions (ts : List String) (n : String) : Bool :=
  ts.contains n || ts.contains ("~" ++ n)

/-- ToggleSet merge rule, modelled from the spec: entries of the second
operand override same-named entries of the first; names mentioned only in one
operand are kept. -/
def togMerge (a b : List String) : List String :=
  a.filter (fun t => !togMentions b (stripTilde t)) ++ b

/-- Key-wise mapping update, modelled from the spec: values of the second
mapping override same-keyed values of the first, new keys are appended. -/
def dictMerge (a b : List (String × String)) : List (String × String) :=
  a.map (fun p => (p.1, (lookupA b p.1).getD p.2)) ++
    b.filter (fun p => (lookupA a p.1).isNone)

/-- Modelled from the spec: the type-specific merge rule of
`wlauto.utils.misc.merge_config_values` (module not under review).  Lists
concatenate with de-duplication by trailing-override precedence (`List.dedup`
keeps the last occurrence), mappings update key-wise, toggle sets merge per
the ToggleSet rule; any other combination is replaced by the new value. -/
def mergeConfigValues : Value → Value → Value
  | Value.list a, Value.list b => Value.list ((a ++ b).dedup)
  | Value.dict a, Value.dict b => Value.dict (dictMerge a b)
  | Value.toggles a, Value.toggles b => Value.toggles (togMerge a b)
  | _, v => v

/-- `merge_config_values` with a possibly-absent (`None`) old value. -/
def mergeOpt : Option Value → Value → Value
  | none, v => v
  | some u, v => mergeConfigValues u v

/-!  ### ConfigurationPoint (configuration.py lines 155-324)

`kind` is the coercion callable (returning `none` models it raising
`ValueError`/`TypeError`); `kindName` is `str(self.kind)` as used by
`validate_allowed_values` to decide whether the kind is list-like;
`constraint` is the constraint predicate (the callable-vs-tuple distinction
only affects the message text, which `CErr.constraintViolation` abstracts). -/

structure ConfigurationPoint where
  name : String
  kind : Value → Option Value
  kindName : String
  mandatory : Bool
  default : Option Value
  allowed_values : Option (List Value)
  constraint : Option (Value → Bool)
  merge : Bool
  aliases : List String
  global_alias : Option String

namespace ConfigurationPoint

/-- `ConfigurationPoint.match` (configuration.py lines 253-258); `match` is a
Lean keyword, hence the name `cpMatch`. -/
def cpMatch (cp : ConfigurationPoint) (n : String) : Bool :=
  if n = cp.name || cp.aliases.contains n then true
  else if cp.global_alias = some n then true
  else false

/-- `'list' in str(self.kind)` of `validate_allowed_values`. -/
def kindIsList (cp : ConfigurationPoint) : Bool :=
  strHasSub cp.kindName "list"

/-- `ConfigurationPoint.validate_allowed_values` (configuration.py lines
296-305). -/
def validate_allowed_values (cp : ConfigurationPoint) (owner : String) (v : Value) :
    Except CErr Unit :=
  match cp.allowed_values with
  | none => Except.ok ()
  | some av =>
    if cp.kindIsList then
      match v with
      | Value.list l =>
        if l.all (fun s => av.contains (Value.str s)) then Except.ok ()
        else Except.error (CErr.invalidValue cp.name owner)
      | w =>
        if av.contains w then Except.ok ()
        else Except.error (CErr.invalidValue cp.name owner)
    else
      if av.contains v then Except.ok ()
      else Except.error (CErr.invalidValue cp.name owner)

/-- `ConfigurationPoint.validate_constraint` (configuration.py lines
307-317). -/
def validate_constraint (cp : ConfigurationPoint) (owner : String) (v : Value) :
    Except CErr Unit :=
  match cp.constraint with
  | none => Except.ok ()
  | some c =>
    if c v then Except.ok ()
    else Except.error (CErr.constraintViolation cp.name owner)

/-- `ConfigurationPoint.validate_value` (configuration.py lines 290-294):
the Python `if self.allowed_values:` / `if self.constraint:` guards are the
`Option` matches inside the two callees. -/
def validate_value (cp : ConfigurationPoint) (owner : String) (v : Value) :
    Except CErr Unit := do
  cp.validate_allowed_values owner v
  cp.validate_constraint owner v

end ConfigurationPoint

/-- The owner object a configuration point's value is set on (a
`Configuration` instance, job-spec template, ...): its `name` attribute and
its dynamic attributes.  An attribute holding Python `None` is modelled as an
absent key. -/
structure Obj where
  name : String
  attrs : List (String × Value)
deriving DecidableEq, Repr

/-- `getattr(obj, name, None)`. -/
def getattr (o : Obj) (n : String) : Option Value :=
  lookupA o.attrs n

/-- `setattr(obj, name, value)` for a non-`None` value. -/
def setattr (o : Obj) (n : String) (v : Value) : Obj :=
  { o with attrs := insertA o.attrs n v }

/-- `setattr(obj, name, None)`: in this model storing `None` is removing the
binding (`getattr`'s default is `None`, so the two are indistinguishable to
the rest of the code). -/
def setattrNone (o : Obj) (n : String) : Obj :=
  { o with attrs := eraseA o.attrs n }

namespace ConfigurationPoint

/-- `ConfigurationPoint.set_value` (configuration.py lines 260-279): resolve
the default, coerce via `kind`, validate, then merge with an existing value
when `merge` is set, and store the result on the owner. -/
def set_value (cp : ConfigurationPoint) (obj : Obj) (value : Option Value)
    (check_mandatory : Bool) : Except CErr Obj := do
  let v ← match value with
    | none =>
      match cp.default with
      | some d => Except.ok (some d)
      | none =>
        if check_mandatory && cp.mandatory then
          Except.error (CErr.noValuesMandatory cp.name obj.name)
        else Except.ok none
    | some raw =>
      match cp.kind raw with
      | none => Except.error (CErr.badValue cp.name)
      | some w => Except.ok (some w)
  match v with
  | none => Except.ok (setattrNone obj cp.name)
  | some w => do
    cp.validate_value obj.name w
    let w :=
      if cp.merge then
        match getattr obj cp.name with
        | some old => mergeConfigValues old w
        | none => w
      else w
    Except.ok (setattr obj cp.name w)

/-- `ConfigurationPoint.validate` (configuration.py lines 281-288). -/
def validate (cp : ConfigurationPoint) (obj : Obj) : Except CErr Unit :=
  match getattr obj cp.name with
  | some v => cp.validate_value obj.name v
  | none =>
    if cp.mandatory then Except.error (CErr.noValueMandatory cp.name obj.name)
    else Except.ok ()

end ConfigurationPoint

/-!  ### Configuration (configuration.py lines 492-536)

A `Configuration` subclass is its `name` plus its list of config points; the
class-level `configuration` dict (`{cp.name: cp for cp in config_points}`) is
modelled by name lookup over `points` (point names are distinct in every
subclass of the source). -/

structure Configuration where
  cname : String
  points : List ConfigurationPoint

namespace Configuration

/-- `Configuration.__init__` (lines 499-502): load the default of every
configuration point onto a fresh instance with `check_mandatory=False`. -/
def init (cfg : Configuration) : Except CErr Obj :=
  cfg.points.foldlM (fun o cp => cp.set_value o none false) ⟨cfg.cname, []⟩

/-- `Configuration.set` (lines 504-507). -/
def set (cfg : Configuration) (o : Obj) (n : String) (v : Option Value)
    (check_mandatory : Bool) : Except CErr Obj :=
  match cfg.points.find? (fun cp => cp.name = n) with
  | none => Except.error (CErr.unknownConfig cfg.cname n)
  | some cp => cp.set_value o v check_mandatory

/-- `Configuration.validate` (lines 513-515). -/
def validate (cfg : Configuration) (o : Obj) : Except CErr Unit :=
  cfg.points.forM (fun cp => cp.validate o)

/-- `Configuration.to_pod` (lines 517-523): the portable form holds every
configuration-point name whose attribute is non-`None`. -/
def to_pod (cfg : Configuration) (o : Obj) : List (String × Value) :=
  cfg.points.filterMap (fun cp => (getattr o cp.name).map (fun v => (cp.name, v)))

/-- `Configuration.from_pod` (lines 525-536): build a fresh defaulted
instance, set every recognized pod entry (popping it), reject leftovers,
then validate. -/
def from_pod (cfg : Configuration) (pod : List (String × Value)) : Except CErr Obj := do
  let o ← cfg.init
  let st ← cfg.points.foldlM
    (fun (st : Obj × List (String × Value)) cp =>
      match lookupA st.2 cp.name with
      | some v => do
        let o' ← cp.set_value st.1 (some v) true
        Except.ok (o', eraseA st.2 cp.name)
      | none => Except.ok st)
    (o, pod)
  if st.2.isEmpty then do
    cfg.validate st.1
    Except.ok st.1
  else Except.error (CErr.invalidEntries cfg.cname (st.2.map Prod.fst))

end Configuration

/-!  ### Behaviour of `set_value` -/

namespace ConfigurationPoint

theorem set_value_some_ok (cp : ConfigurationPoint) (o : Obj) (raw w : Value)
    (cm : Bool) (hk : cp.kind raw = some w)
    (hv : cp.validate_value o.name w = Except.ok ()) :
    cp.set_value o (some raw) cm =
      Except.ok (setattr o cp.name
        (if cp.merge then mergeOpt (getattr o cp.name) w else w)) := by
  simp only [set_value, hk, Bind.bind, Except.bind]
  cases hm : cp.merge <;> cases hg : getattr o cp.name <;>
    simp [hm, hg, mergeOpt, hv, Bind.bind, Except.bind]

theorem set_value_default_ok (cp : ConfigurationPoint) (o : Obj) (d : Value)
    (cm : Bool) (hd : cp.default = some d)
    (hv : cp.validate_value o.name d = Except.ok ()) :
    cp.set_value o none cm =
      Except.ok (setattr o cp.name
        (if cp.merge then mergeOpt (getattr o cp.name) d else d)) := by
  simp only [set_value, hd, Bind.bind, Except.bind]
  cases hm : cp.merge <;> cases hg : getattr o cp.name <;>
    simp [hm, hg, mergeOpt, hv, Bind.bind, Except.bind]

theorem set_value_no_default (cp : ConfigurationPoint) (o : Obj) (cm : Bool)
    (hd : cp.default = none) (hnm : (cm && cp.mandatory) = false) :
    cp.set_value o none cm = Except.ok (setattrNone o cp.name) := by
  simp [set_value, hd, hnm, Bind.bind, Except.bind]

end ConfigurationPoint

/-- C1: with `merge=true` and an owner that already holds a value for the
point's name, `ConfigurationPoint.set_value` stores the type-specific
combination `mergeConfigValues old new` of the old and the newly coerced
value rather than overwriting with the new value alone. -/
theorem set_value_merges_existing (cp : ConfigurationPoint) (o : Obj)
    (raw w old : Value) (cm : Bool)
    (hm : cp.merge = true)
    (hold : getattr o cp.name = some old)
    (hk : cp.kind raw = some w)
    (hv : cp.validate_value o.name w = Except.ok ()) :
    cp.set_value o (some raw) cm =
      Except.ok (setattr o cp.name (mergeConfigValues old w)) := by
  rw [cp.set_value_some_ok o raw w cm hk hv, hm, hold]
  simp [mergeOpt]

/-!  Concrete data for witnesses: a list-kinded and a string-kinded coercion
(`wlauto.utils.types.list_of_strings` / `str`), and configuration points in
the shape of `WAConfiguration.config_points`. -/

/-- A list-valued kind: accepts exactly list values (cf.
`list_of_strings`). -/
def kindList : Value → Option Value
  | Value.list l => some (Value.list l)
  | _ => none

/-- A string-valued kind: accepts exactly string values (cf. `str`). -/
def kindStr : Value → Option Value
  | Value.str s => some (Value.str s)
  | _ => none

/-- A merge-enabled list configuration point in the shape of
`WAConfiguration`'s `plugin_paths`. -/
def cpPaths : ConfigurationPoint :=
  { name := "plugin_paths", kind := kindList, kindName := "list_of_strings",
    mandatory := false, default := some (Value.list ["workloads"]),
    allowed_values := none, constraint := none, merge := true,
    aliases := [], global_alias := none }

/-- A mandatory string configuration point in the shape of
`RunConfiguration`'s `device`. -/
def cpDevice : ConfigurationPoint :=
  { name := "device", kind := kindStr, kindName := "str",
    mandatory := true, default := none,
    allowed_values := none, constraint := none, merge := false,
    aliases := [], global_alias := none }

/-- Witness for C1: a concrete owner already holding
`plugin_paths = ["workloads"]` has `["deps"]` merged in, not overwritten. -/
theorem set_value_merges_existing_witness :
    cpPaths.merge = true ∧
    cpPaths.set_value ⟨"WA Configuration", [("plugin_paths", Value.list ["workloads"])]⟩
        (some (Value.list ["deps"])) true =
      Except.ok (setattr ⟨"WA Configuration", [("plugin_paths", Value.list ["workloads"])]⟩
        "plugin_paths" (mergeConfigValues (Value.list ["workloads"]) (Value.list ["deps"]))) :=
  ⟨rfl, set_value_merges_existing cpPaths
    ⟨"WA Configuration", [("plugin_paths", Value.list ["workloads"])]⟩
    (Value.list ["deps"]) (Value.list ["deps"]) (Value.list ["workloads"]) true
    rfl rfl rfl rfl⟩

/-!  ### Validation outcomes -/

theorem validate_allowed_values_cases (cp : ConfigurationPoint) (owner : String)
    (v : Value) :
    cp.validate_allowed_values owner v = Except.ok () ∨
      cp.validate_allowed_values owner v =
        Except.error (CErr.invalidValue cp.name owner) := by
  unfold ConfigurationPoint.validate_allowed_values
  rcases cp.allowed_values with _ | av
  · exact Or.inl rfl
  · dsimp only
    split
    · split
      · split <;> simp
      · split <;> simp
    · split <;> simp

theorem validate_constraint_cases (cp : ConfigurationPoint) (owner : String)
    (v : Value) :
    cp.validate_constraint owner v = Except.ok () ∨
      cp.validate_constraint owner v =
        Except.error (CErr.constraintViolation cp.name owner) := by
  unfold ConfigurationPoint.validate_constraint
  rcases cp.constraint with _ | c
  · exact Or.inl rfl
  · dsimp only
    split <;> simp

theorem validate_value_not_noValueMandatory (cp : ConfigurationPoint)
    (owner : String) (v : Value) (p q : String) :
    cp.validate_value owner v ≠ Except.error (CErr.noValueMandatory p q) := by
  unfold ConfigurationPoint.validate_value
  rcases validate_allowed_values_cases cp owner v with h | h <;>
    rcases validate_constraint_cases cp owner v with h2 | h2 <;>
      simp [h, h2, Bind.bind, Except.bind]

/-- C6: for a configuration point with `mandatory=true` and no default,
`ConfigurationPoint.validate` raises the missing-mandatory-parameter error
exactly when the owner's attribute for the point's name is absent (holds no
non-`None` value). -/
theorem validate_missing_mandatory_iff (cp : ConfigurationPoint) (obj : Obj)
    (hm : cp.mandatory = true) (hd : cp.default = none) :
    cp.validate obj = Except.error (CErr.noValueMandatory cp.name obj.name) ↔
      getattr obj cp.name = none := by
  constructor
  · intro h
    cases hg : getattr obj cp.name with
    | none => rfl
    | some v =>
      rw [ConfigurationPoint.validate, hg] at h
      exact absurd h (validate_value_not_noValueMandatory cp obj.name v _ _)
  · intro h
    rw [ConfigurationPoint.validate, h, hm]
    rfl

/-- Witness for C6 at the `device`-shaped mandatory point and a fresh owner
without the attribute. -/
theorem validate_missing_mandatory_iff_witness :
    cpDevice.mandatory = true ∧
    (cpDevice.validate ⟨"Run Configuration", []⟩ =
        Except.error (CErr.noValueMandatory cpDevice.name "Run Configuration") ↔
      getattr ⟨"Run Configuration", []⟩ cpDevice.name = none) :=
  ⟨rfl, validate_missing_mandatory_iff cpDevice ⟨"Run Configuration", []⟩ rfl rfl⟩

/-!  ### RuntimeParameter (configuration.py lines 327-373)

`self.name = re.compile(name)` stores a compiled regular expression that the
rest of the code only uses through `self.name.match(...)`; the compiled
pattern is therefore modelled by its match predicate `nameMatch`. -/

structure RuntimeParameter where
  nameMatch : String → Bool
  kind : Value → Option Value
  merge : Bool

/-- Provenance: contributing source → the value it supplied. -/
abbrev Provenance := List (String × Value)

/-- The `dest` mapping of `update_value`: parameter name → (working value,
provenance). -/
abbrev RTDest := List (String × (Value × Provenance))

namespace RuntimeParameter

/-- `RuntimeParameter.validate_kind` (lines 346-353): the coercion result is
checked and then discarded (the local rebinding of `value` does not escape). -/
def validate_kind (rtp : RuntimeParameter) (value : Value) (n : String) :
    Except CErr Unit :=
  match rtp.kind value with
  | none => Except.error (CErr.badValue n)
  | some _ => Except.ok ()

/-- `RuntimeParameter.match` (lines 355-358). -/
def rtpMatch (rtp : RuntimeParameter) (n : String) : Bool :=
  if rtp.nameMatch n then true else false

/-- `RuntimeParameter.update_value` (lines 360-373). -/
def update_value (rtp : RuntimeParameter) (n : String) (new_value : Value)
    (source : String) (dest : RTDest) : Except CErr RTDest := do
  rtp.validate_kind new_value n
  let old_value : Option Value := (lookupA dest n).map Prod.fst
  let sources : Provenance := ((lookupA dest n).map Prod.snd).getD []
  let sources := insertA sources source new_value
  let nv := if rtp.merge then mergeOpt old_value new_value else new_value
  Except.ok (insertA dest n (nv, sources))

end RuntimeParameter

/-- `RuntimeParameterManager.update_value` (configuration.py lines 397-404):
the `for ... break / else` loop dispatches to the first runtime parameter
whose pattern matches, and fails with the unknown-runtime-parameter error
when none does. -/
def managerUpdateValue (rtps : List RuntimeParameter) (n : String)
    (value : Value) (source : String) (dest : RTDest) : Except CErr RTDest :=
  match rtps.find? (fun r => r.rtpMatch n) with
  | some rtp => rtp.update_value n value source dest
  | none => Except.error (CErr.unknownRuntimeParameter n)

theorem find?_first {α : Type} (p : α → Bool) (pre : List α) (x : α)
    (post : List α) (h1 : ∀ r ∈ pre, p r = false) (h2 : p x = true) :
    (pre ++ x :: post).find? p = some x := by
  induction pre with
  | nil => simpa using List.find?_cons_of_pos _ h2
  | cons hd t ih =>
    rw [List.cons_append, List.find?_cons_of_neg]
    · exact ih fun r hr => h1 r (List.mem_cons_of_mem _ hr)
    · simp [h1 hd (List.mem_cons_self _ _)]

/-- C3: `RuntimeParameterManager.update_value` dispatches to the first
registered runtime parameter whose pattern matches the name; that parameter
checks the value coerces to its kind, extends the provenance map with
`source ↦ supplied value`, and stores as the working value the merge of old
and new when merge-enabled and the new value outright otherwise; a name
matching no registered pattern fails with the unknown-runtime-parameter
error. -/
theorem manager_update_value_spec (rtps : List RuntimeParameter) (n : String)
    (value : Value) (source : String) (dest : RTDest) :
    (∀ pre rtp post w, rtps = pre ++ rtp :: post →
      (∀ r ∈ pre, r.rtpMatch n = false) → rtp.rtpMatch n = true →
      rtp.kind value = some w →
      managerUpdateValue rtps n value source dest =
        Except.ok (insertA dest n
          ((if rtp.merge then mergeOpt ((lookupA dest n).map Prod.fst) value
            else value),
           insertA (((lookupA dest n).map Prod.snd).getD []) source value))) ∧
    ((∀ r ∈ rtps, r.rtpMatch n = false) →
      managerUpdateValue rtps n value source dest =
        Except.error (CErr.unknownRuntimeParameter n)) := by
  constructor
  · intro pre rtp post w hsplit h1 h2 hk
    rw [managerUpdateValue, hsplit, find?_first _ pre rtp post h1 h2]
    simp [RuntimeParameter.update_value, RuntimeParameter.validate_kind, hk,
      Bind.bind, Except.bind]
  · intro hnone
    rw [managerUpdateValue, List.find?_eq_none.mpr (by simpa using hnone)]

/-- An integer coercion in the shape of `wlauto.utils.types.integer`. -/
def kindInt : Value → Option Value
  | Value.int n => some (Value.int n)
  | Value.str s => (s.toInt?).map Value.int
  | _ => none

/-- Runtime parameter in the shape of `"(.+)_frequency"` from
`CpuFreqParameters.runtime_parameters`, its pattern modelled over the two
core names of a big.LITTLE target. -/
def rtpFrequency : RuntimeParameter :=
  { nameMatch := fun s => s = "a53_frequency" || s = "a57_frequency",
    kind := kindInt, merge := false }

/-- Witness for C3: a matched name updates the provenance-tracked store, an
unmatched name fails. -/
theorem manager_update_value_spec_witness :
    managerUpdateValue [rtpFrequency] "a53_frequency" (Value.int 1000000)
        "agenda" [] =
      Except.ok [("a53_frequency",
        (Value.int 1000000, [("agenda", Value.int 1000000)]))] ∧
    managerUpdateValue [rtpFrequency] "a53_governor" (Value.int 3) "agenda" [] =
      Except.error (CErr.unknownRuntimeParameter "a53_governor") := by
  constructor
  · have h := (manager_update_value_spec [rtpFrequency] "a53_frequency"
      (Value.int 1000000) "agenda" []).1 [] rtpFrequency [] (Value.int 1000000)
      rfl (by simp) (by decide) rfl
    simpa [rtpFrequency, insertA, lookupA] using h
  · exact (manager_update_value_spec [rtpFrequency] "a53_governor"
      (Value.int 3) "agenda" []).2 (by decide)

/-!  ### CpuFreqParameters (configuration.py lines 431-481)

`_cross_validate` reads the per-core merged values via `_get_merged_value`;
the merged-value store is modelled as a lookup function from core name and
family member name to the merged integer value. -/

/-- `CpuFreqParameters._cross_validate` (lines 471-481): `g core member`
models `self._get_merged_value(core, member)`. -/
def cross_validate (g : String → String → Int) (core : String) :
    Except CErr Unit :=
  if g core "max_frequency" < g core "min_frequency" then
    Except.error (CErr.maxFreqLessThanMin core)
  else if ¬(g core "min_frequency" < g core "frequency" ∧
      g core "frequency" < g core "max_frequency") then
    Except.error (CErr.freqNotBetween core)
  else Except.ok ()

/-- A merged-value store with `min_frequency = frequency = 100 ≤
max_frequency = 200` for every core. -/
def mergedAtMin : String → String → Int :=
  fun _ p => if p = "min_frequency" then 100 else
    if p = "max_frequency" then 200 else 100

/-- C4 counterexample: the assignment `min_frequency = 100`, `frequency =
100`, `max_frequency = 200` satisfies `min ≤ frequency ≤ max`, yet
`_cross_validate` rejects it (the code requires the strict
`min < frequency < max`). -/
theorem cross_validate_rejects_min_eq_freq :
    mergedAtMin "a53" "min_frequency" ≤ mergedAtMin "a53" "frequency" ∧
    mergedAtMin "a53" "frequency" ≤ mergedAtMin "a53" "max_frequency" ∧
    cross_validate mergedAtMin "a53" =
      Except.error (CErr.freqNotBetween "a53") := by
  exact ⟨by decide, by decide, rfl⟩

/-- C4 (amended): `_cross_validate` accepts exactly the assignments with
`min_frequency < frequency < max_frequency` (strict); when
`max_frequency < min_frequency` it fails with the error naming that
relationship and the core, and otherwise, when the frequency is outside the
open interval, it fails with the error naming the between-relationship and
the core. -/
theorem cross_validate_spec (g : String → String → Int) (core : String) :
    (cross_validate g core = Except.ok () ↔
      (g core "min_frequency" < g core "frequency" ∧
        g core "frequency" < g core "max_frequency")) ∧
    (g core "max_frequency" < g core "min_frequency" →
      cross_validate g core = Except.error (CErr.maxFreqLessThanMin core)) ∧
    (¬ g core "max_frequency" < g core "min_frequency" →
      ¬(g core "min_frequency" < g core "frequency" ∧
          g core "frequency" < g core "max_frequency") →
      cross_validate g core = Except.error (CErr.freqNotBetween core)) := by
  refine ⟨?_, ?_, ?_⟩
  · unfold cross_validate
    by_cases hmax : g core "max_frequency" < g core "min_frequency"
    · rw [if_pos hmax]
      constructor
      · intro hc; exact absurd hc (by simp)
      · intro hc; omega
    · rw [if_neg hmax]
      by_cases hbet : g core "min_frequency" < g core "frequency" ∧
          g core "frequency" < g core "max_frequency"
      · rw [if_neg (not_not_intro hbet)]
        exact ⟨fun _ => hbet, fun _ => rfl⟩
      · rw [if_pos hbet]
        exact ⟨fun hc => absurd hc (by simp), fun hc => absurd hc hbet⟩
  · intro h
    unfold cross_validate
    rw [if_pos h]
  · intro h1 h2
    unfold cross_validate
    rw [if_neg h1, if_pos h2]

/-- Witness for C4's amended theorem: `100 < 150 < 200` is accepted. -/
theorem cross_validate_spec_witness :
    cross_validate (fun _ p => if p = "min_frequency" then 100 else
      if p = "max_frequency" then 200 else 150) "a53" = Except.ok () :=
  (cross_validate_spec (fun _ p => if p = "min_frequency" then 100 else
    if p = "max_frequency" then 200 else 150) "a53").1.mpr (by decide)

/-!  ### JobGenerator's enabled-instrument accumulator (configuration.py
lines 924-946)

Only the state touched by `enabled_instruments` /
`update_enabled_instruments` is modelled: the accumulator set
`_enabled_instruments` (a list with set semantics) and the
`_read_enabled_instruments` flag. -/

structure JobGenerator where
  enabledInstruments : List String
  readEnabled : Bool
deriving DecidableEq, Repr

namespace JobGenerator

/-- Python `set.update`: add the members of `b` not already present. -/
def setUpdate (a b : List String) : List String :=
  a ++ b.filter (fun x => !a.contains x)

/-- The `enabled_instruments` property (lines 928-931): returns the
accumulator and, as a side effect, marks it as read. -/
def enabled_instruments (jg : JobGenerator) : List String × JobGenerator :=
  (jg.enabledInstruments, { jg with readEnabled := true })

/-- `JobGenerator.update_enabled_instruments` (lines 933-937): fails once the
accumulator has been read, otherwise unions in the given names. -/
def update_enabled_instruments (jg : JobGenerator) (value : List String) :
    Except CErr JobGenerator :=
  if jg.readEnabled then Except.error CErr.updateAfterRead
  else Except.ok { jg with enabledInstruments := setUpdate jg.enabledInstruments value }

/-- The two operations a caller can perform on the accumulator. -/
inductive Op where
  | readInstr
  | updateInstr (v : List String)

/-- One caller interaction; a failing update raises, leaving the state
unchanged. -/
def step (jg : JobGenerator) : Op → JobGenerator
  | Op.readInstr => (jg.enabled_instruments).2
  | Op.updateInstr v =>
    match jg.update_enabled_instruments v with
    | Except.ok jg' => jg'
    | Except.error _ => jg

/-- A whole sequence of caller interactions. -/
def run (jg : JobGenerator) (ops : List Op) : JobGenerator :=
  ops.foldl step jg

theorem run_fixed_after_read (jg : JobGenerator) (hr : jg.readEnabled = true) :
    ∀ ops, jg.run ops = jg := by
  intro ops
  induction ops generalizing jg with
  | nil => rfl
  | cons op t ih =>
    have hstep : jg.step op = jg := by
      cases op with
      | readInstr =>
        simp only [step, enabled_instruments]
        cases jg
        simp_all
      | updateInstr v =>
        simp [step, update_enabled_instruments, hr]
    rw [run, List.foldl_cons, hstep]
    exact ih jg hr

/-- C5: before the accumulator is first read every
`update_enabled_instruments` call succeeds and adds the given names; reading
it sets the read flag; from then on every update fails with the
cannot-update error and no sequence of interactions changes the
accumulator's contents. -/
theorem enabled_instruments_read_locks (jg : JobGenerator) (v : List String) :
    (jg.readEnabled = false →
      jg.update_enabled_instruments v =
        Except.ok { jg with enabledInstruments := setUpdate jg.enabledInstruments v } ∧
      (∀ x ∈ v, x ∈ setUpdate jg.enabledInstruments v) ∧
      (∀ x ∈ jg.enabledInstruments, x ∈ setUpdate jg.enabledInstruments v)) ∧
    ((jg.enabled_instruments).2.readEnabled = true) ∧
    (jg.readEnabled = true →
      jg.update_enabled_instruments v = Except.error CErr.updateAfterRead ∧
      ∀ ops, (jg.run ops).enabledInstruments = jg.enabledInstruments) := by
  refine ⟨?_, rfl, ?_⟩
  · intro hr
    refine ⟨by simp [update_enabled_instruments, hr], ?_, ?_⟩
    · intro x hx
      by_cases hmem : jg.enabledInstruments.contains x
      · simpa [setUpdate] using Or.inl (by simpa using hmem)
      · simp only [setUpdate, List.mem_append, List.mem_filter]
        exact Or.inr ⟨hx, by simpa using hmem⟩
    · intro x hx
      simp [setUpdate, hx]
  · intro hr
    refine ⟨by simp [update_enabled_instruments, hr], ?_⟩
    intro ops
    rw [run_fixed_after_read jg hr ops]

/-- Witness for C5: a fresh accumulator accepts an update; after a read the
same update fails and arbitrary further interactions leave the contents
unchanged. -/
theorem enabled_instruments_read_locks_witness :
    (JobGenerator.mk [] false).update_enabled_instruments ["trace"] =
      Except.ok (JobGenerator.mk ["trace"] false) ∧
    (JobGenerator.mk ["trace"] true).update_enabled_instruments ["hwmon"] =
      Except.error CErr.updateAfterRead ∧
    ((JobGenerator.mk ["trace"] true).run
        [Op.updateInstr ["hwmon"], Op.readInstr]).enabledInstruments = ["trace"] := by
  refine ⟨?_, ?_, ?_⟩
  · have h := ((enabled_instruments_read_locks (JobGenerator.mk [] false) ["trace"]).1 rfl).1
    simpa [setUpdate] using h
  · exact ((enabled_instruments_read_locks (JobGenerator.mk ["trace"] true) ["hwmon"]).2.2 rfl).1
  · exact ((enabled_instruments_read_locks (JobGenerator.mk ["trace"] true) ["hwmon"]).2.2 rfl).2
      [Op.updateInstr ["hwmon"], Op.readInstr]

end JobGenerator

/-!  ### parsers.py: id validation (`_collect_valid_id`, lines 116-128) -/

/-- `_collect_valid_id`: `seen` is the set of already-recorded ids of this
kind (a list with set semantics, newest first). -/
def collect_valid_id (entry_id : Option String) (seen : List String)
    (entry_type : String) : Except CErr (List String) :=
  match entry_id with
  | none => Except.ok seen
  | some i =>
    if i ∈ seen then Except.error (CErr.duplicateId entry_type i)
    else if strContains i '-' then Except.error (CErr.idContainsDash entry_type i)
    else if i = "global" then Except.error (CErr.reservedGlobalId entry_type)
    else Except.ok (i :: seen)

/-- C9: id validation rejects, with the corresponding structural error,
exactly the user-supplied ids that duplicate an already-seen id, contain the
reserved separator `-`, or equal the reserved root id `global`; every other
id is accepted and recorded into the seen set. -/
theorem collect_valid_id_spec (i : String) (seen : List String) (t : String) :
    ((∃ e, collect_valid_id (some i) seen t = Except.error e) ↔
      (i ∈ seen ∨ strContains i '-' = true ∨ i = "global")) ∧
    (i ∈ seen →
      collect_valid_id (some i) seen t = Except.error (CErr.duplicateId t i)) ∧
    (i ∉ seen → strContains i '-' = true →
      collect_valid_id (some i) seen t = Except.error (CErr.idContainsDash t i)) ∧
    (i ∉ seen → strContains i '-' = false → i = "global" →
      collect_valid_id (some i) seen t = Except.error (CErr.reservedGlobalId t)) ∧
    (i ∉ seen → strContains i '-' = false → i ≠ "global" →
      collect_valid_id (some i) seen t = Except.ok (i :: seen)) := by
  refine ⟨?_, ?_, ?_, ?_, ?_⟩
  all_goals simp only [collect_valid_id]
  · constructor
    · rintro ⟨e, he⟩
      by_contra hno
      push_neg at hno
      rw [if_neg hno.1, if_neg (by simp [hno.2.1]), if_neg hno.2.2] at he
      cases he
    · rintro (h | h | h)
      · exact ⟨_, by rw [if_pos h]⟩
      · by_cases hm : i ∈ seen
        · exact ⟨_, by rw [if_pos hm]⟩
        · exact ⟨_, by rw [if_neg hm, if_pos h]⟩
      · by_cases hm : i ∈ seen
        · exact ⟨_, by rw [if_pos hm]⟩
        · by_cases hc : strContains i '-' = true
          · exact ⟨_, by rw [if_neg hm, if_pos hc]⟩
          · exact ⟨_, by rw [if_neg hm, if_neg hc, if_pos h]⟩
  · intro h
    rw [if_pos h]
  · intro h1 h2
    rw [if_neg h1, if_pos h2]
  · intro h1 h2 h3
    rw [if_neg h1, if_neg (by simp [h2]), if_pos h3]
  · intro h1 h2 h3
    rw [if_neg h1, if_neg (by simp [h2]), if_neg h3]

/-- Witness for C9: `"my-id"` is rejected for its dash, `"global"` as
reserved, a duplicate is rejected, and `"s1"` is accepted and recorded. -/
theorem collect_valid_id_spec_witness :
    collect_valid_id (some "my-id") [] "section" =
      Except.error (CErr.idContainsDash "section" "my-id") ∧
    collect_valid_id (some "global") [] "section" =
      Except.error (CErr.reservedGlobalId "section") ∧
    collect_valid_id (some "s1") ["s1"] "section" =
      Except.error (CErr.duplicateId "section" "s1") ∧
    collect_valid_id (some "s1") ["s2"] "section" = Except.ok ["s1", "s2"] :=
  ⟨(collect_valid_id_spec "my-id" [] "section").2.2.1 (by decide) (by decide),
   (collect_valid_id_spec "global" [] "section").2.2.2.1 (by decide) (by decide) rfl,
   (collect_valid_id_spec "s1" ["s1"] "section").2.1 (by decide),
   (collect_valid_id_spec "s1" ["s2"] "section").2.2.2.2 (by decide) (by decide)
     (by decide)⟩

/-!  ### parsers.py: instrumentation / result-processor merging (lines 67-77)

`wlauto.utils.types.toggle_set` is not part of the sources under review; its
`conflicts_with` and `merge_with` methods are modelled from the spec. -/

/-- `toggle_set(list)`: a Python set of toggle strings, modelled as the
de-duplicated list. -/
def toggleSetOf (l : List String) : List String :=
  l.dedup

/-- Modelled from the spec: `conflicts_with(other)` "returns the set of item
names present with opposite polarity in both operands". -/
def conflictsWith (a b : List String) : List String :=
  (a.map stripTilde).dedup.filter (fun n =>
    (a.contains n && b.contains ("~" ++ n)) ||
    (a.contains ("~" ++ n) && b.contains n))

/-- `get_aliased_param` (parsers.py lines 33-51) with `pop=True` and default
`[]`, specialised to the `instrumentation` configuration point (whose
name/alias list is `["instrumentation", "instruments"]`) over a dictionary of
raw toggle lists. -/
def get_aliased_toggles (names : List String) (d : List (String × List String)) :
    Except CErr (List String × List (String × List String)) :=
  let alias_map := names.filter (fun a => (lookupA d a).isSome)
  if alias_map.length > 1 then Except.error (CErr.duplicateEntry names)
  else
    match alias_map with
    | [a] => Except.ok ((lookupA d a).getD [], eraseA d a)
    | _ => Except.ok ([], d)

/-- `merge_result_processors_instruments` (parsers.py lines 67-77): pop the
`instrumentation` entry (or alias) and the `result_processors` entry, reject
opposite-polarity conflicts between the two toggle sets naming the stripped
conflicting items, and store their merge back under `instrumentation`. -/
def merge_result_processors_instruments (raw : List (String × List String)) :
    Except CErr (List (String × List String)) := do
  let ir ← get_aliased_toggles ["instrumentation", "instruments"] raw
  let instruments := toggleSetOf ir.1
  let result_processors := toggleSetOf ((lookupA ir.2 "result_processors").getD [])
  let raw := eraseA ir.2 "result_processors"
  if instruments.isEmpty || result_processors.isEmpty then
    Except.ok (insertA raw "instrumentation" (togMerge instruments result_processors))
  else
    let conflicts := conflictsWith instruments result_processors
    if conflicts.isEmpty then
      Except.ok (insertA raw "instrumentation" (togMerge instruments result_processors))
    else
      Except.error (CErr.conflictingEntries (conflicts.map stripTilde))

/-- C7: merging instrumentation `["one","two"]` with result-processors
`["~one","three"]` fails with the conflict error naming `"one"`, while any
two toggle lists without opposite-polarity overlap merge without error into
a single toggle set stored under `instrumentation`. -/
theorem merge_rpi_conflict_spec :
    merge_result_processors_instruments
        [("instrumentation", ["one", "two"]), ("result_processors", ["~one", "three"])] =
      Except.error (CErr.conflictingEntries ["one"]) ∧
    (∀ i r : List String,
      conflictsWith (toggleSetOf i) (toggleSetOf r) = [] →
      merge_result_processors_instruments
          [("instrumentation", i), ("result_processors", r)] =
        Except.ok [("instrumentation",
          togMerge (toggleSetOf i) (toggleSetOf r))]) := by
  constructor
  · rfl
  · intro i r hc
    show (do
      let ir ← get_aliased_toggles ["instrumentation", "instruments"]
        [("instrumentation", i), ("result_processors", r)]
      let instruments := toggleSetOf ir.1
      let result_processors := toggleSetOf ((lookupA ir.2 "result_processors").getD [])
      let raw := eraseA ir.2 "result_processors"
      if instruments.isEmpty || result_processors.isEmpty then
        Except.ok (insertA raw "instrumentation" (togMerge instruments result_processors))
      else
        let conflicts := conflictsWith instruments result_processors
        if conflicts.isEmpty then
          Except.ok (insertA raw "instrumentation" (togMerge instruments result_processors))
        else
          Except.error (CErr.conflictingEntries (conflicts.map stripTilde))) = _
    have hga : get_aliased_toggles ["instrumentation", "instruments"]
        [("instrumentation", i), ("result_processors", r)] =
        Except.ok (i, [("result_processors", r)]) := by
      simp [get_aliased_toggles, lookupA, eraseA]
    rw [hga]
    simp only [Bind.bind, Except.bind, lookupA, if_pos rfl, Option.getD_some, eraseA]
    by_cases h1 : (toggleSetOf i).isEmpty
    · simp [h1, insertA]
    · by_cases h2 : (toggleSetOf r).isEmpty
      · simp [h1, h2, insertA]
      · simp [h1, h2, hc, insertA]

/-- Witness for C7's no-conflict branch: `["one","two"]` and
`["three","~four"]` merge into one toggle set. -/
theorem merge_rpi_conflict_spec_witness :
    merge_result_processors_instruments
        [("instrumentation", ["one", "two"]), ("result_processors", ["three", "~four"])] =
      Except.ok [("instrumentation", ["one", "two", "three", "~four"])] := by
  have h := merge_rpi_conflict_spec.2 ["one", "two"] ["three", "~four"] (by decide)
  simpa [toggleSetOf, togMerge, togMentions, stripTilde] using h

/-!  ### parsers.py: automatic id assignment (`_construct_valid_entry` lines
80-92, `AgendaParser.load` phases 3-4, lines 254-281)

`wlauto.utils.types.counter` is not part of the sources under review.
Modelled from the spec: a kind-specific monotonic counter whose successive
calls return 1, 2, ...; its state is threaded explicitly as a `Nat`.  The
`"{}{}".format(counter_name, counter(...))` interpolation renders the value
in decimal, modelled by `natToStr` below. -/

/-- Little-endian decimal digits of `n`, with explicit fuel so the
definition computes by structural recursion (`natDigitsAux n n` is exact for
any `n`). -/
def natDigitsAux : Nat → Nat → List Nat
  | 0, _ => []
  | _ + 1, 0 => []
  | fuel + 1, n + 1 => (n + 1) % 10 :: natDigitsAux fuel ((n + 1) / 10)

/-- Little-endian decimal digits of `n`. -/
def natDigits (n : Nat) : List Nat :=
  natDigitsAux n n

/-- Value of a little-endian digit list, inverse of `natDigits`. -/
def digitsVal : List Nat → Nat
  | [] => 0
  | d :: t => d + 10 * digitsVal t

theorem digitsVal_natDigitsAux (fuel : Nat) :
    ∀ n, n ≤ fuel → digitsVal (natDigitsAux fuel n) = n := by
  induction fuel with
  | zero =>
    intro n hn
    interval_cases n
    rfl
  | succ f ih =>
    intro n hn
    match n with
    | 0 => rfl
    | m + 1 =>
      have hdiv : (m + 1) / 10 ≤ f := by
        have h1 : (m + 1) / 10 < m + 1 := Nat.div_lt_self (Nat.succ_pos m) (by omega)
        omega
      simp only [natDigitsAux, digitsVal, ih ((m + 1) / 10) hdiv]
      omega

theorem natDigits_injective : Function.Injective natDigits := by
  intro a b h
  have ha := digitsVal_natDigitsAux a a le_rfl
  have hb := digitsVal_natDigitsAux b b le_rfl
  rw [← ha, ← hb]
  unfold natDigits at h
  rw [h]

theorem natDigitsAux_lt_ten (fuel : Nat) :
    ∀ n d, d ∈ natDigitsAux fuel n → d < 10 := by
  induction fuel with
  | zero => intro n d hd; simp [natDigitsAux] at hd
  | succ f ih =>
    intro n d hd
    match n with
    | 0 => simp [natDigitsAux] at hd
    | m + 1 =>
      simp only [natDigitsAux, List.mem_cons] at hd
      rcases hd with h | h
      · subst h; exact Nat.mod_lt _ (by omega)
      · exact ih _ d h

/-- The character of one decimal digit (`'0' + d`). -/
def digitOfNat (d : Nat) : Char :=
  Char.ofNat (48 + d)

theorem digitOfNat_inj_lt (d1 d2 : Nat) (h1 : d1 < 10) (h2 : d2 < 10)
    (h : digitOfNat d1 = digitOfNat d2) : d1 = d2 := by
  have hfin : ∀ a : Fin 10, ∀ b : Fin 10,
      digitOfNat a.val = digitOfNat b.val → a = b := by decide
  have heq := hfin ⟨d1, h1⟩ ⟨d2, h2⟩ h
  exact congrArg Fin.val heq

theorem map_digitOfNat_inj (l1 l2 : List Nat) (h1 : ∀ d ∈ l1, d < 10)
    (h2 : ∀ d ∈ l2, d < 10) (h : l1.map digitOfNat = l2.map digitOfNat) :
    l1 = l2 := by
  induction l1 generalizing l2 with
  | nil => cases l2 <;> simp_all
  | cons a t ih =>
    cases l2 with
    | nil => simp_all
    | cons b t2 =>
      simp only [List.map_cons, List.cons.injEq] at h
      have ha := digitOfNat_inj_lt a b (h1 a (List.mem_cons_self _ _))
        (h2 b (List.mem_cons_self _ _)) h.1
      have ht := ih t2 (fun d hd => h1 d (List.mem_cons_of_mem _ hd))
        (fun d hd => h2 d (List.mem_cons_of_mem _ hd)) h.2
      rw [ha, ht]

/-- Decimal rendering of a counter value. -/
def natToStr (n : Nat) : String :=
  String.mk (((natDigits n).map digitOfNat).reverse)

theorem natToStr_injective : Function.Injective natToStr := by
  intro a b h
  unfold natToStr at h
  have hl : ((natDigits a).map digitOfNat).reverse =
      ((natDigits b).map digitOfNat).reverse := by
    injection h
  have hmap := List.reverse_injective hl
  exact natDigits_injective (map_digitOfNat_inj _ _
    (natDigitsAux_lt_ten a a) (natDigitsAux_lt_ten b b) hmap)

theorem string_append_left_cancel (a b c : String) (h : a ++ b = a ++ c) :
    b = c := by
  have hd := congrArg String.data h
  simp only [String.data_append] at hd
  exact String.ext (List.append_cancel_left hd)

/-- The candidate-id loop of `_construct_valid_entry` (lines 85-88): keep
drawing counter values and forming `"{}{}".format(counter_name, value)`
until the candidate is not among the seen ids.  `c` is the counter state
(last value handed out); the fuel makes the recursion structural and
`genIdAux_fuel_sufficient` shows `seen.length + 1` fuel never runs out. -/
def genIdAux (k : String) (seen : List String) : Nat → Nat → Option (String × Nat)
  | 0, _ => none
  | fuel + 1, c =>
    let cand := k ++ natToStr (c + 1)
    if cand ∈ seen then genIdAux k seen fuel (c + 1) else some (cand, c + 1)

theorem genIdAux_some_not_mem (k : String) (seen : List String) :
    ∀ fuel c i c', genIdAux k seen fuel c = some (i, c') → i ∉ seen := by
  intro fuel
  induction fuel with
  | zero => intro c i c' h; simp [genIdAux] at h
  | succ f ih =>
    intro c i c' h
    simp only [genIdAux] at h
    split at h
    · exact ih (c + 1) i c' h
    · rename_i hmem
      obtain ⟨rfl, rfl⟩ : k ++ natToStr (c + 1) = i ∧ c + 1 = c' := by
        simpa using h
      exact hmem

theorem genIdAux_none_mem (k : String) (seen : List String) :
    ∀ fuel c, genIdAux k seen fuel c = none →
      ∀ j, c < j → j ≤ c + fuel → (k ++ natToStr j) ∈ seen := by
  intro fuel
  induction fuel with
  | zero => intro c _ j hj1 hj2; omega
  | succ f ih =>
    intro c h j hj1 hj2
    simp only [genIdAux] at h
    split at h
    · rename_i hmem
      by_cases hj : j = c + 1
      · subst hj; exact hmem
      · exact ih (c + 1) h j (by omega) (by omega)
    · cases h

theorem genIdAux_fuel_sufficient (k : String) (seen : List String) (c : Nat) :
    ∃ r, genIdAux k seen (seen.length + 1) c = some r := by
  rcases hg : genIdAux k seen (seen.length + 1) c with _ | r
  · exfalso
    have hall := genIdAux_none_mem k seen (seen.length + 1) c hg
    set cands := (List.range (seen.length + 1)).map
      (fun i => k ++ natToStr (c + 1 + i)) with hcands
    have hnod : cands.Nodup := by
      refine List.Nodup.map ?_ (List.nodup_range _)
      intro x y hxy
      simp only at hxy
      have := natToStr_injective (string_append_left_cancel _ _ _ hxy)
      omega
    have hsub : cands ⊆ seen := by
      intro x hx
      rw [hcands, List.mem_map] at hx
      obtain ⟨i, hi, rfl⟩ := hx
      rw [List.mem_range] at hi
      exact hall (c + 1 + i) (by omega) (by omega)
    have hlen : cands.length ≤ seen.length := by
      calc cands.length = cands.toFinset.card :=
            (List.toFinset_card_of_nodup hnod).symm
        _ ≤ seen.toFinset.card := Finset.card_le_card (fun x hx =>
            List.mem_toFinset.mpr (hsub (List.mem_toFinset.mp hx)))
        _ ≤ seen.length := List.toFinset_card_le seen
    rw [hcands] at hlen
    simp at hlen
  · exact ⟨r, rfl⟩

/-- The id-assignment step of `_construct_valid_entry` (lines 83-92): an
entry carrying a user id pops it (phase 3 already recorded it); an entry
without one receives the first counter-generated candidate not in
`seen_ids`, which is then recorded. -/
def constructEntryId (k : String) (raw_id : Option String) (seen : List String)
    (cnt : Nat) : Option (String × List String × Nat) :=
  match raw_id with
  | some i => some (i, seen, cnt)
  | none =>
    match genIdAux k seen (seen.length + 1) cnt with
    | some (newId, cnt') => some (newId, newId :: seen, cnt')
    | none => none

/-- Phase 4 of `AgendaParser.load` restricted to id assignment: process the
entries in order, threading the seen-id set and the counter. -/
def assignIds (k : String) :
    List (Option String) → List String → Nat →
      Option (List String × List String × Nat)
  | [], seen, cnt => some ([], seen, cnt)
  | e :: rest, seen, cnt =>
    match constructEntryId k e seen cnt with
    | none => none
    | some (i, seen1, cnt1) =>
      match assignIds k rest seen1 cnt1 with
      | none => none
      | some (out, seen2, cnt2) => some (i :: out, seen2, cnt2)

/-- Phases 3 and 4 of `AgendaParser.load` restricted to the ids of one entry
kind: collect and validate every user-supplied id upfront
(`_collect_valid_id` into an initially empty seen set), then assign ids
entry by entry.  Each entry is represented by its optional user id. -/
def loadEntryIds (k t : String) (entries : List (Option String)) :
    Except CErr (Option (List String)) := do
  let seen ← entries.foldlM (fun s e => collect_valid_id e s t) []
  Except.ok ((assignIds k entries seen 0).map (fun r => r.1))

theorem collect_fold_spec (t : String) :
    ∀ (entries : List (Option String)) (seen out : List String),
      entries.foldlM (fun s e => collect_valid_id e s t) seen = Except.ok out →
      (∀ x ∈ seen, x ∈ out) ∧
      (∀ i, (some i) ∈ entries → i ∈ out) ∧
      (entries.filterMap (fun e => e)).Nodup ∧
      (∀ u ∈ entries.filterMap (fun e => e), u ∉ seen) := by
  intro entries
  induction entries with
  | nil =>
    intro seen out h
    simp only [List.foldlM_nil] at h
    obtain rfl : seen = out := by simpa [pure, Except.pure] using h
    simp
  | cons e rest ih =>
    intro seen out h
    rw [List.foldlM_cons] at h
    cases e with
    | none =>
      simp only [collect_valid_id, Bind.bind, Except.bind] at h
      have h' : rest.foldlM (fun s e => collect_valid_id e s t) seen =
          Except.ok out := h
      obtain ⟨c1, c2, c3, c4⟩ := ih seen out h'
      refine ⟨c1, ?_, by simpa using c3, by simpa using c4⟩
      intro i hi
      rcases List.mem_cons.mp hi with hcontra | hmem
      · cases hcontra
      · exact c2 i hmem
    | some u =>
      simp only [collect_valid_id] at h
      by_cases hmem : u ∈ seen
      · rw [if_pos hmem] at h
        simp [Bind.bind, Except.bind] at h
      · rw [if_neg hmem] at h
        by_cases hdash : strContains u '-' = true
        · rw [if_pos hdash] at h
          simp [Bind.bind, Except.bind] at h
        · rw [if_neg hdash] at h
          by_cases hglob : u = "global"
          · rw [if_pos hglob] at h
            simp [Bind.bind, Except.bind] at h
          · rw [if_neg hglob] at h
            have h' : rest.foldlM (fun s e => collect_valid_id e s t) (u :: seen) =
                Except.ok out := h
            obtain ⟨c1, c2, c3, c4⟩ := ih (u :: seen) out h'
            refine ⟨?_, ?_, ?_, ?_⟩
            · intro x hx
              exact c1 x (List.mem_cons_of_mem _ hx)
            · intro i hi
              rcases List.mem_cons.mp hi with heq | hmemr
              · injection heq with heq2
                subst heq2
                exact c1 i (List.mem_cons_self _ _)
              · exact c2 i hmemr
            · have hfm : List.filterMap (fun e => e) (some u :: rest) =
                  u :: List.filterMap (fun e => e) rest := by
                simp
              rw [hfm]
              refine List.Nodup.cons ?_ c3
              intro hu
              exact (c4 u hu) (List.mem_cons_self _ _)
            · intro v hv
              have hfm : List.filterMap (fun e => e) (some u :: rest) =
                  u :: List.filterMap (fun e => e) rest := by
                simp
              rw [hfm, List.mem_cons] at hv
              rcases hv with rfl | hvr
              · exact hmem
              · intro hvs
                exact (c4 v hvr) (List.mem_cons_of_mem _ hvs)

theorem assignIds_spec (k : String) :
    ∀ (entries : List (Option String)) (seen : List String) (cnt : Nat)
      (out seen' : List String) (cnt' : Nat),
      assignIds k entries seen cnt = some (out, seen', cnt') →
      (∀ i, (some i) ∈ entries → i ∈ seen) →
      (entries.filterMap (fun e => e)).Nodup →
      out.Nodup ∧
      (∀ x ∈ out, x ∈ entries.filterMap (fun e => e) ∨ x ∉ seen) := by
  intro entries
  induction entries with
  | nil =>
    intro seen cnt out seen' cnt' h _ _
    obtain ⟨rfl, rfl, rfl⟩ : ([] : List String) = out ∧ seen = seen' ∧ cnt = cnt' := by
      simpa [assignIds] using h
    simp
  | cons e rest ih =>
    intro seen cnt out seen' cnt' h husers hnod
    cases e with
    | some u =>
      simp only [assignIds, constructEntryId] at h
      rcases hrec : assignIds k rest seen cnt with _ | ⟨out2, seen2, cnt2⟩ <;>
        rw [hrec] at h
      · cases h
      · obtain ⟨rfl, rfl, rfl⟩ : u :: out2 = out ∧ seen2 = seen' ∧ cnt2 = cnt' := by
          simpa using h
        have husers' : ∀ i, (some i) ∈ rest → i ∈ seen := by
          intro i hi; exact husers i (List.mem_cons_of_mem _ hi)
        have hnod' : (rest.filterMap (fun e => e)).Nodup := by
          simpa using (List.Nodup.of_cons (by simpa using hnod))
        obtain ⟨c1, c2⟩ := ih seen cnt out2 seen2 cnt2 hrec husers' hnod'
        have hu_notin_restusers : u ∉ rest.filterMap (fun e => e) := by
          have : (u :: rest.filterMap (fun e => e)).Nodup := by simpa using hnod
          exact (List.nodup_cons.mp this).1
        have hu_seen : u ∈ seen := husers u (List.mem_cons_self _ _)
        refine ⟨List.nodup_cons.mpr ⟨?_, c1⟩, ?_⟩
        · intro hu_out
          rcases c2 u hu_out with hin | hnin
          · exact hu_notin_restusers hin
          · exact hnin hu_seen
        · intro x hx
          rcases List.mem_cons.mp hx with rfl | hx2
          · exact Or.inl (by simp)
          · rcases c2 x hx2 with hin | hnin
            · exact Or.inl (by simp [hin])
            · exact Or.inr hnin
    | none =>
      simp only [assignIds, constructEntryId] at h
      rcases hgen : genIdAux k seen (seen.length + 1) cnt with _ | ⟨a, cnt1⟩ <;>
        rw [hgen] at h <;> dsimp only at h
      · cases h
      · have ha_notin : a ∉ seen := genIdAux_some_not_mem k seen _ cnt a cnt1 hgen
        rcases hrec : assignIds k rest (a :: seen) cnt1 with _ | ⟨out2, seen2, cnt2⟩ <;>
          rw [hrec] at h
        · cases h
        · obtain ⟨rfl, rfl, rfl⟩ : a :: out2 = out ∧ seen2 = seen' ∧ cnt2 = cnt' := by
            simpa using h
          have husers' : ∀ i, (some i) ∈ rest → i ∈ a :: seen := by
            intro i hi
            exact List.mem_cons_of_mem _ (husers i (List.mem_cons_of_mem _ hi))
          have hnod' : (rest.filterMap (fun e => e)).Nodup := by simpa using hnod
          obtain ⟨c1, c2⟩ := ih (a :: seen) cnt1 out2 seen2 cnt2 hrec husers' hnod'
          refine ⟨List.nodup_cons.mpr ⟨?_, c1⟩, ?_⟩
          · intro ha_out
            rcases c2 a ha_out with hin | hnin
            · obtain ⟨x, hx, hxa⟩ := List.mem_filterMap.mp hin
              have : a ∈ seen := husers a (List.mem_cons_of_mem _ (hxa ▸ hx))
              exact ha_notin this
            · exact hnin (List.mem_cons_self _ _)
          · intro x hx
            rcases List.mem_cons.mp hx with rfl | hx2
            · exact Or.inr ha_notin
            · rcases c2 x hx2 with hin | hnin
              · exact Or.inl (by simpa using hin)
              · exact Or.inr (fun hxs => hnin (List.mem_cons_of_mem _ hxs))

/-- C8: whenever `AgendaParser.load`'s id pipeline succeeds, the assigned
ids (user-supplied and counter-generated alike) are pairwise distinct — auto
ids skip every value already taken — and on the spec's example
`[{id: wk2}, {name: x}, {name: y}]` the automatic ids are `wk1` and `wk3`,
skipping the taken `wk2`. -/
theorem auto_ids_never_collide (k t : String) (entries : List (Option String))
    (ids : List String) :
    (loadEntryIds k t entries = Except.ok (some ids) → ids.Nodup) ∧
    loadEntryIds "wk" "workload" [some "wk2", none, none] =
      Except.ok (some ["wk2", "wk1", "wk3"]) := by
  constructor
  · intro h
    unfold loadEntryIds at h
    rcases hfold : entries.foldlM (fun s e => collect_valid_id e s t) [] with e0 | seen <;>
      rw [hfold] at h
    · simp [Bind.bind, Except.bind] at h
    · simp only [Bind.bind, Except.bind, Except.ok.injEq] at h
      rcases hassign : assignIds k entries seen 0 with _ | ⟨out, seen', cnt'⟩ <;>
        rw [hassign] at h
      · simp at h
      · simp only [Option.map_some'] at h
        obtain rfl : out = ids := by simpa using h
        obtain ⟨_, c2, c3, _⟩ := collect_fold_spec t entries [] seen hfold
        exact (assignIds_spec k entries seen 0 out seen' cnt' hassign c2 c3).1
  · rfl

/-- Witness for C8: the example run is also fed back through the general
no-collision statement. -/
theorem auto_ids_never_collide_witness :
    (["wk2", "wk1", "wk3"] : List String).Nodup :=
  (auto_ids_never_collide "wk" "workload" [some "wk2", none, none]
    ["wk2", "wk1", "wk3"]).1
    (auto_ids_never_collide "wk" "workload" [some "wk2", none, none]
      ["wk2", "wk1", "wk3"]).2

/-!  ### configuration_points.py (lines 27-245)

`configuration_points.py` declares `ConfigurationPoint` (lines 27-196) and
`RuntimeParameter` (lines 199-245) textually identical to the classes of the
same names in `configuration.py`.  They are embedded again here, in the
`CPts` namespace, so that the behavioural equivalence of the two modules is
a theorem relating two independent definitions. -/

namespace CPts

structure ConfigurationPoint where
  name : String
  kind : Value → Option Value
  kindName : String
  mandatory : Bool
  default : Option Value
  allowed_values : Option (List Value)
  constraint : Option (Value → Bool)
  merge : Bool
  aliases : List String
  global_alias : Option String

namespace ConfigurationPoint

/-- `ConfigurationPoint.match` (configuration_points.py lines 125-130). -/
def cpMatch (cp : ConfigurationPoint) (n : String) : Bool :=
  if n = cp.name || cp.aliases.contains n then true
  else if cp.global_alias = some n then true
  else false

/-- `'list' in str(self.kind)` of `validate_allowed_values`. -/
def kindIsList (cp : ConfigurationPoint) : Bool :=
  strHasSub cp.kindName "list"

/-- `ConfigurationPoint.validate_allowed_values` (configuration_points.py
lines 168-177). -/
def validate_allowed_values (cp : ConfigurationPoint) (owner : String) (v : Value) :
    Except CErr Unit :=
  match cp.allowed_values with
  | none => Except.ok ()
  | some av =>
    if cp.kindIsList then
      match v with
      | Value.list l =>
        if l.all (fun s => av.contains (Value.str s)) then Except.ok ()
        else Except.error (CErr.invalidValue cp.name owner)
      | w =>
        if av.contains w then Except.ok ()
        else Except.error (CErr.invalidValue cp.name owner)
    else
      if av.contains v then Except.ok ()
      else Except.error (CErr.invalidValue cp.name owner)

/-- `ConfigurationPoint.validate_constraint` (configuration_points.py lines
179-189). -/
def validate_constraint (cp : ConfigurationPoint) (owner : String) (v : Value) :
    Except CErr Unit :=
  match cp.constraint with
  | none => Except.ok ()
  | some c =>
    if c v then Except.ok ()
    else Except.error (CErr.constraintViolation cp.name owner)

/-- `ConfigurationPoint.validate_value` (configuration_points.py lines
162-166). -/
def validate_value (cp : ConfigurationPoint) (owner : String) (v : Value) :
    Except CErr Unit := do
  cp.validate_allowed_values owner v
  cp.validate_constraint owner v

/-- `ConfigurationPoint.set_value` (configuration_points.py lines 132-151). -/
def set_value (cp : ConfigurationPoint) (obj : Obj) (value : Option Value)
    (check_mandatory : Bool) : Except CErr Obj := do
  let v ← match value with
    | none =>
      match cp.default with
      | some d => Except.ok (some d)
      | none =>
        if check_mandatory && cp.mandatory then
          Except.error (CErr.noValuesMandatory cp.name obj.name)
        else Except.ok none
    | some raw =>
      match cp.kind raw with
      | none => Except.error (CErr.badValue cp.name)
      | some w => Except.ok (some w)
  match v with
  | none => Except.ok (setattrNone obj cp.name)
  | some w => do
    cp.validate_value obj.name w
    let w :=
      if cp.merge then
        match getattr obj cp.name with
        | some old => mergeConfigValues old w
        | none => w
      else w
    Except.ok (setattr obj cp.name w)

/-- `ConfigurationPoint.validate` (configuration_points.py lines 153-160). -/
def validate (cp : ConfigurationPoint) (obj : Obj) : Except CErr Unit :=
  match getattr obj cp.name with
  | some v => cp.validate_value obj.name v
  | none =>
    if cp.mandatory then Except.error (CErr.noValueMandatory cp.name obj.name)
    else Except.ok ()

end ConfigurationPoint

structure RuntimeParameter where
  nameMatch : String → Bool
  kind : Value → Option Value
  merge : Bool

namespace RuntimeParameter

/-- `RuntimeParameter.validate_kind` (configuration_points.py lines
218-225). -/
def validate_kind (rtp : RuntimeParameter) (value : Value) (n : String) :
    Except CErr Unit :=
  match rtp.kind value with
  | none => Except.error (CErr.badValue n)
  | some _ => Except.ok ()

/-- `RuntimeParameter.match` (configuration_points.py lines 227-230). -/
def rtpMatch (rtp : RuntimeParameter) (n : String) : Bool :=
  if rtp.nameMatch n then true else false

/-- `RuntimeParameter.update_value` (configuration_points.py lines
232-245). -/
def update_value (rtp : RuntimeParameter) (n : String) (new_value : Value)
    (source : String) (dest : RTDest) : Except CErr RTDest := do
  rtp.validate_kind new_value n
  let old_value : Option Value := (lookupA dest n).map Prod.fst
  let sources : Provenance := ((lookupA dest n).map Prod.snd).getD []
  let sources := insertA sources source new_value
  let nv := if rtp.merge then mergeOpt old_value new_value else new_value
  Except.ok (insertA dest n (nv, sources))

end RuntimeParameter

end CPts

/-- Field-for-field translation between the `ConfigurationPoint` records of
`configuration.py` and `configuration_points.py` (both classes declare the
same constructor attributes). -/
def toCPts (cp : ConfigurationPoint) : CPts.ConfigurationPoint :=
  ⟨cp.name, cp.kind, cp.kindName, cp.mandatory, cp.default, cp.allowed_values,
   cp.constraint, cp.merge, cp.aliases, cp.global_alias⟩

/-- Field-for-field translation between the two `RuntimeParameter` records. -/
def toCPtsR (r : RuntimeParameter) : CPts.RuntimeParameter :=
  ⟨r.nameMatch, r.kind, r.merge⟩

/-- C10: the `ConfigurationPoint` and `RuntimeParameter` classes of
`configuration.py` and the identically named classes of
`configuration_points.py` are behaviourally equivalent: on every input,
`match`, `set_value`, `validate`, `validate_value`, `validate_kind` and
`update_value` of corresponding instances produce the same result state or
the same error. -/
theorem configuration_points_modules_equivalent (cp : ConfigurationPoint)
    (r : RuntimeParameter) (obj : Obj) (n owner source : String) (v : Value)
    (ov : Option Value) (cm : Bool) (dest : RTDest) :
    (toCPts cp).cpMatch n = cp.cpMatch n ∧
    (toCPts cp).set_value obj ov cm = cp.set_value obj ov cm ∧
    (toCPts cp).validate obj = cp.validate obj ∧
    (toCPts cp).validate_value owner v = cp.validate_value owner v ∧
    (toCPtsR r).rtpMatch n = r.rtpMatch n ∧
    (toCPtsR r).validate_kind v n = r.validate_kind v n ∧
    (toCPtsR r).update_value n v source dest = r.update_value n v source dest :=
  ⟨rfl, rfl, rfl, rfl, rfl, rfl, rfl⟩

/-!  ### The to_pod / from_pod round trip (claim about configuration.py
lines 499-536)

The round trip is proved for every state reachable through the public
lifecycle of a `Configuration` instance (constructed by `__init__`, mutated
by successful `set` calls) that passes `validate`, under the structural
hypotheses on the registered points that every `Configuration` subclass of
the source satisfies: distinct point names, idempotent kind coercions,
self-coercing valid defaults, and merge rules compatible with the kinds. -/

theorem getattr_setattr_self (o : Obj) (n : String) (v : Value) :
    getattr (setattr o n v) n = some v :=
  lookupA_insertA_self o.attrs n v

theorem getattr_setattr_other (o : Obj) (n m : String) (v : Value) (h : m ≠ n) :
    getattr (setattr o n v) m = getattr o m :=
  lookupA_insertA_other o.attrs n m v h

theorem getattr_setattrNone_self (o : Obj) (n : String) :
    getattr (setattrNone o n) n = none :=
  lookupA_eraseA_self o.attrs n

theorem getattr_setattrNone_other (o : Obj) (n m : String) (h : m ≠ n) :
    getattr (setattrNone o n) m = getattr o m :=
  lookupA_eraseA_other o.attrs n m h

theorem forM_ok_each {α : Type} (f : α → Except CErr Unit) :
    ∀ l : List α, l.forM f = Except.ok () → ∀ x ∈ l, f x = Except.ok () := by
  intro l
  induction l with
  | nil => intro _ x hx; cases hx
  | cons hd t ih =>
    intro h x hx
    simp only [List.forM] at h
    rcases hf : f hd with e | u
    · rw [hf] at h
      simp [Bind.bind, Except.bind] at h
    · rw [hf] at h
      simp only [Bind.bind, Except.bind] at h
      rcases List.mem_cons.mp hx with rfl | hxt
      · cases u
        exact hf
      · exact ih h x hxt

theorem forM_ok_of_each {α : Type} (f : α → Except CErr Unit) :
    ∀ l : List α, (∀ x ∈ l, f x = Except.ok ()) → l.forM f = Except.ok () := by
  intro l
  induction l with
  | nil => intro _; rfl
  | cons hd t ih =>
    intro h
    simp only [List.forM, h hd (List.mem_cons_self _ _), Bind.bind, Except.bind]
    exact ih fun x hx => h x (List.mem_cons_of_mem _ hx)

namespace ConfigurationPoint

theorem set_value_ok_inversion (cp : ConfigurationPoint) (o : Obj)
    (val : Option Value) (cm : Bool) (o' : Obj)
    (h : cp.set_value o val cm = Except.ok o') :
    (∃ raw w, val = some raw ∧ cp.kind raw = some w ∧
        cp.validate_value o.name w = Except.ok () ∧
        o' = setattr o cp.name
          (if cp.merge = true then mergeOpt (getattr o cp.name) w else w)) ∨
    (∃ d, val = none ∧ cp.default = some d ∧
        cp.validate_value o.name d = Except.ok () ∧
        o' = setattr o cp.name
          (if cp.merge = true then mergeOpt (getattr o cp.name) d else d)) ∨
    (val = none ∧ cp.default = none ∧ o' = setattrNone o cp.name) := by
  cases val with
  | some raw =>
    left
    rcases hk : cp.kind raw with _ | w
    · exfalso
      rw [set_value, hk] at h
      simp [Bind.bind, Except.bind] at h
    · rcases hv : cp.validate_value o.name w with e | u
      · exfalso
        rw [set_value, hk] at h
        simp [Bind.bind, Except.bind, hv] at h
      · cases u
        refine ⟨raw, w, rfl, hk, hv, ?_⟩
        rw [cp.set_value_some_ok o raw w cm hk hv] at h
        have h2 := Except.ok.inj h
        rw [← h2]
  | none =>
    rcases hd : cp.default with _ | d
    · right; right
      refine ⟨rfl, rfl, ?_⟩
      rw [set_value, hd] at h
      rcases hcm : cm && cp.mandatory with _ | _
      · rw [hcm] at h
        simp only [Bind.bind, Except.bind] at h
        exact (Except.ok.inj h).symm
      · rw [hcm] at h
        simp [Bind.bind, Except.bind] at h
    · right; left
      rcases hv : cp.validate_value o.name d with e | u
      · exfalso
        rw [set_value, hd] at h
        simp [Bind.bind, Except.bind, hv] at h
      · cases u
        refine ⟨d, rfl, by simp [hd], hv, ?_⟩
        rw [cp.set_value_default_ok o d cm hd hv] at h
        have h2 := Except.ok.inj h
        rw [← h2]

theorem set_value_preserves_name (cp : ConfigurationPoint) (o : Obj)
    (val : Option Value) (cm : Bool) (o' : Obj)
    (h : cp.set_value o val cm = Except.ok o') : o'.name = o.name := by
  rcases cp.set_value_ok_inversion o val cm o' h with
    ⟨raw, w, _, _, _, rfl⟩ | ⟨d, _, _, _, rfl⟩ | ⟨_, _, rfl⟩ <;> rfl

theorem set_value_preserves_other (cp : ConfigurationPoint) (o : Obj)
    (val : Option Value) (cm : Bool) (o' : Obj) (m : String)
    (h : cp.set_value o val cm = Except.ok o') (hm : m ≠ cp.name) :
    getattr o' m = getattr o m := by
  rcases cp.set_value_ok_inversion o val cm o' h with
    ⟨raw, w, _, _, _, rfl⟩ | ⟨d, _, _, _, rfl⟩ | ⟨_, _, rfl⟩
  · exact getattr_setattr_other o _ m _ hm
  · exact getattr_setattr_other o _ m _ hm
  · exact getattr_setattrNone_other o _ m hm

end ConfigurationPoint

/-- Idempotence of a kind coercion: coercing an already-coerced value is the
identity (true of all kinds the code registers). -/
def KindIdem (cp : ConfigurationPoint) : Prop :=
  ∀ v w, cp.kind v = some w → cp.kind w = some w

/-- A present default passes validation against the owner and is a fixed
point of its own kind coercion. -/
def DefaultOk (cp : ConfigurationPoint) (owner : String) : Prop :=
  ∀ d, cp.default = some d →
    cp.validate_value owner d = Except.ok () ∧ cp.kind d = some d

/-- Compatibility of a merge-enabled point's kind, default and merge rule:
kind-fixed values are closed under merging, the default absorbs itself, and
merging preserves absorption of the default (true of the list / mapping /
toggle-set merge rules the code uses). -/
def MergeCompat (cp : ConfigurationPoint) : Prop :=
  cp.merge = true →
    (∀ v w, cp.kind v = some v → cp.kind w = some w →
      cp.kind (mergeConfigValues v w) = some (mergeConfigValues v w)) ∧
    ∀ d, cp.default = some d →
      mergeConfigValues d d = d ∧
      ∀ v w, cp.kind v = some v → mergeConfigValues d v = v →
        cp.kind w = some w →
        mergeConfigValues d (mergeConfigValues v w) = mergeConfigValues v w

/-- The states reachable through the public lifecycle of a `Configuration`
instance: constructed by `__init__` and then mutated by successful `set`
calls (the "created with schema defaults applied, mutated by repeated set
calls" lifecycle). -/
inductive Reaches (cfg : Configuration) : Obj → Prop where
  | init : ∀ o, cfg.init = Except.ok o → Reaches cfg o
  | step : ∀ o n v cm o', Reaches cfg o → cfg.set o n v cm = Except.ok o' →
      Reaches cfg o'

/-- Invariant of reachable states: the owner carries the configuration's
name, every stored value is kind-fixed and (for merge points) absorbs the
default, and a point with a default always holds a value. -/
def StateOk (cfg : Configuration) (o : Obj) : Prop :=
  o.name = cfg.cname ∧
  (∀ cp ∈ cfg.points, ∀ v, getattr o cp.name = some v →
    cp.kind v = some v ∧
    (cp.merge = true → ∀ d, cp.default = some d → mergeConfigValues d v = v)) ∧
  (∀ cp ∈ cfg.points, cp.default.isSome → (getattr o cp.name).isSome)

theorem point_eq_of_name_eq (cfg : Configuration)
    (hnodup : (cfg.points.map ConfigurationPoint.name).Nodup)
    (cp cq : ConfigurationPoint) (hp : cp ∈ cfg.points) (hq : cq ∈ cfg.points)
    (h : cp.name = cq.name) : cp = cq :=
  List.inj_on_of_nodup_map hnodup hp hq h

theorem init_fold (cname : String) :
    ∀ (pts : List ConfigurationPoint) (o : Obj),
      o.name = cname →
      (pts.map ConfigurationPoint.name).Nodup →
      (∀ cp ∈ pts, DefaultOk cp cname) →
      (∀ cp ∈ pts, getattr o cp.name = none) →
      ∃ o', pts.foldlM (fun o cp => cp.set_value o none false) o = Except.ok o' ∧
        o'.name = cname ∧
        (∀ cp ∈ pts, getattr o' cp.name = cp.default) ∧
        (∀ m, (∀ cp ∈ pts, cp.name ≠ m) → getattr o' m = getattr o m) := by
  intro pts
  induction pts with
  | nil =>
    intro o hname _ _ _
    exact ⟨o, rfl, hname, by simp, fun m _ => rfl⟩
  | cons cp rest ih =>
    intro o hname hnodup hdef habsent
    have hcpin : cp ∈ cp :: rest := List.mem_cons_self _ _
    have hAbs : getattr o cp.name = none := habsent cp hcpin
    have hstep : ∃ o1, cp.set_value o none false = Except.ok o1 ∧
        getattr o1 cp.name = cp.default ∧ o1.name = o.name ∧
        (∀ m, m ≠ cp.name → getattr o1 m = getattr o m) := by
      rcases hd : cp.default with _ | d
      · refine ⟨setattrNone o cp.name, ?_, ?_, rfl, ?_⟩
        · exact cp.set_value_no_default o false hd (by simp)
        · rw [getattr_setattrNone_self]
        · intro m hm
          exact getattr_setattrNone_other o _ m hm
      · obtain ⟨hval, _⟩ := hdef cp hcpin d hd
        have hval' : cp.validate_value o.name d = Except.ok () := by
          rw [hname]; exact hval
        refine ⟨setattr o cp.name d, ?_, ?_, rfl, ?_⟩
        · rw [cp.set_value_default_ok o d false hd hval', hAbs]
          simp [mergeOpt]
        · rw [getattr_setattr_self]
        · intro m hm
          exact getattr_setattr_other o _ m d hm
    obtain ⟨o1, h1, h1attr, h1name, h1frame⟩ := hstep
    have hnodup' : (rest.map ConfigurationPoint.name).Nodup :=
      (List.nodup_cons.mp hnodup).2
    have hhead : cp.name ∉ rest.map ConfigurationPoint.name :=
      (List.nodup_cons.mp hnodup).1
    have hdef' : ∀ cq ∈ rest, DefaultOk cq cname := fun cq hq =>
      hdef cq (List.mem_cons_of_mem _ hq)
    have habs' : ∀ cq ∈ rest, getattr o1 cq.name = none := by
      intro cq hq
      have hne : cq.name ≠ cp.name := by
        intro hcontra
        exact hhead (hcontra ▸ List.mem_map_of_mem ConfigurationPoint.name hq)
      rw [h1frame cq.name hne]
      exact habsent cq (List.mem_cons_of_mem _ hq)
    obtain ⟨o', hfold, hname', hattr', hframe'⟩ :=
      ih o1 (h1name.trans hname) hnodup' hdef' habs'
    refine ⟨o', ?_, hname', ?_, ?_⟩
    · rw [List.foldlM_cons, h1]
      exact hfold
    · intro cq hq
      rcases List.mem_cons.mp hq with rfl | hqr
      · have hne : ∀ cr ∈ rest, cr.name ≠ cq.name := by
          intro cr hr hcontra
          exact hhead (hcontra ▸ List.mem_map_of_mem ConfigurationPoint.name hr)
        rw [hframe' cq.name hne, h1attr]
      · exact hattr' cq hqr
    · intro m hm
      rw [hframe' m (fun cr hr => hm cr (List.mem_cons_of_mem _ hr)),
        h1frame m (Ne.symm (hm cp hcpin))]

theorem init_spec (cfg : Configuration)
    (hnodup : (cfg.points.map ConfigurationPoint.name).Nodup)
    (hdef : ∀ cp ∈ cfg.points, DefaultOk cp cfg.cname) :
    ∃ o, cfg.init = Except.ok o ∧ o.name = cfg.cname ∧
      (∀ cp ∈ cfg.points, getattr o cp.name = cp.default) := by
  obtain ⟨o, hfold, hname, hattr, _⟩ :=
    init_fold cfg.cname cfg.points ⟨cfg.cname, []⟩ rfl hnodup hdef
      (fun _ _ => rfl)
  exact ⟨o, hfold, hname, hattr⟩

theorem set_preserves_StateOk (cfg : Configuration)
    (hnodup : (cfg.points.map ConfigurationPoint.name).Nodup)
    (hkind : ∀ cp ∈ cfg.points, KindIdem cp)
    (hdef : ∀ cp ∈ cfg.points, DefaultOk cp cfg.cname)
    (hmc : ∀ cp ∈ cfg.points, MergeCompat cp)
    (o : Obj) (n : String) (v : Option Value) (cm : Bool) (o' : Obj)
    (hok : StateOk cfg o) (h : cfg.set o n v cm = Except.ok o') :
    StateOk cfg o' := by
  obtain ⟨hname, hinv, hdefsome⟩ := hok
  rw [Configuration.set] at h
  rcases hfind : cfg.points.find? (fun cp => cp.name = n) with _ | cp0 <;>
    rw [hfind] at h
  · cases h
  · have hmem0 : cp0 ∈ cfg.points := List.mem_of_find?_eq_some hfind
    have hsv : cp0.set_value o v cm = Except.ok o' := h
    have hnameo' : o'.name = cfg.cname :=
      (cp0.set_value_preserves_name o v cm o' hsv).trans hname
    have hframe : ∀ m, m ≠ cp0.name → getattr o' m = getattr o m :=
      fun m hm => cp0.set_value_preserves_other o v cm o' m hsv hm
    -- the value now stored at cp0.name, when some, is kind-fixed and
    -- default-absorbing
    have hstored : ∀ w, getattr o' cp0.name = some w →
        cp0.kind w = some w ∧
        (cp0.merge = true → ∀ d, cp0.default = some d →
          mergeConfigValues d w = w) := by
      intro w hw
      rcases cp0.set_value_ok_inversion o v cm o' hsv with
        ⟨raw, u, _, hk, _, rfl⟩ | ⟨d, _, hd, _, rfl⟩ | ⟨_, hd, rfl⟩
      · rw [getattr_setattr_self] at hw
        have hu : cp0.kind u = some u := hkind cp0 hmem0 raw u hk
        by_cases hm : cp0.merge = true
        case neg =>
          rw [if_neg hm] at hw
          obtain rfl : u = w := by injection hw
          exact ⟨hu, fun hcontra => absurd hcontra hm⟩
        case pos =>
          rw [if_pos hm] at hw
          rcases hg : getattr o cp0.name with _ | vold
          · rw [hg] at hw
            obtain rfl : u = w := by injection hw
            refine ⟨hu, ?_⟩
            intro _ d hd
            exfalso
            have := hdefsome cp0 hmem0 (by rw [hd]; rfl)
            rw [hg] at this
            cases this
          · rw [hg] at hw
            simp only [mergeOpt] at hw
            obtain rfl : mergeConfigValues vold u = w := by injection hw
            obtain ⟨hkv, hstab⟩ := hinv cp0 hmem0 vold hg
            obtain ⟨hc1, hc2⟩ := hmc cp0 hmem0 hm
            refine ⟨hc1 vold u hkv hu, ?_⟩
            intro _ d hd
            obtain ⟨_, habsorb⟩ := hc2 d hd
            exact habsorb vold u hkv (hstab hm d hd) hu
      · rw [getattr_setattr_self] at hw
        obtain ⟨_, hkd⟩ := hdef cp0 hmem0 d hd
        by_cases hm : cp0.merge = true
        case neg =>
          rw [if_neg hm] at hw
          obtain rfl : d = w := by injection hw
          exact ⟨hkd, fun hcontra => absurd hcontra hm⟩
        case pos =>
          rw [if_pos hm] at hw
          rcases hg : getattr o cp0.name with _ | vold
          · rw [hg] at hw
            obtain rfl : d = w := by injection hw
            refine ⟨hkd, ?_⟩
            intro _ d' hd'
            obtain rfl : d = d' := by rw [hd] at hd'; injection hd'
            obtain ⟨hc1, hc2⟩ := hmc cp0 hmem0 hm
            exact (hc2 d hd).1
          · rw [hg] at hw
            simp only [mergeOpt] at hw
            obtain rfl : mergeConfigValues vold d = w := by injection hw
            obtain ⟨hkv, hstab⟩ := hinv cp0 hmem0 vold hg
            obtain ⟨hc1, hc2⟩ := hmc cp0 hmem0 hm
            refine ⟨hc1 vold d hkv hkd, ?_⟩
            intro _ d' hd'
            obtain rfl : d = d' := by rw [hd] at hd'; injection hd'
            obtain ⟨_, habsorb⟩ := hc2 d hd
            exact habsorb vold d hkv (hstab hm d hd) hkd
      · rw [getattr_setattrNone_self] at hw
        cases hw
    refine ⟨hnameo', ?_, ?_⟩
    · intro cq hq w hw
      by_cases hqn : cq.name = cp0.name
      · obtain rfl : cq = cp0 := point_eq_of_name_eq cfg hnodup cq cp0 hq hmem0 hqn
        exact hstored w hw
      · rw [hframe cq.name hqn] at hw
        exact hinv cq hq w hw
    · intro cq hq hqd
      by_cases hqn : cq.name = cp0.name
      · obtain rfl : cq = cp0 := point_eq_of_name_eq cfg hnodup cq cp0 hq hmem0 hqn
        rcases cq.set_value_ok_inversion o v cm o' hsv with
          ⟨raw, u, _, _, _, rfl⟩ | ⟨d, _, _, _, rfl⟩ | ⟨_, hd, rfl⟩
        · rw [getattr_setattr_self]; rfl
        · rw [getattr_setattr_self]; rfl
        · rw [hd] at hqd
          cases hqd
      · rw [hframe cq.name hqn]
        exact hdefsome cq hq hqd

theorem reaches_StateOk (cfg : Configuration)
    (hnodup : (cfg.points.map ConfigurationPoint.name).Nodup)
    (hkind : ∀ cp ∈ cfg.points, KindIdem cp)
    (hdef : ∀ cp ∈ cfg.points, DefaultOk cp cfg.cname)
    (hmc : ∀ cp ∈ cfg.points, MergeCompat cp)
    (c : Obj) (hreach : Reaches cfg c) : StateOk cfg c := by
  induction hreach with
  | init o hinit =>
    obtain ⟨o0, hinit0, hname0, hattr0⟩ := init_spec cfg hnodup hdef
    rw [hinit0] at hinit
    obtain rfl : o0 = o := by injection hinit
    refine ⟨hname0, ?_, ?_⟩
    · intro cp hp v hv
      rw [hattr0 cp hp] at hv
      obtain ⟨hval, hkd⟩ := hdef cp hp v hv
      refine ⟨hkd, ?_⟩
      intro hm d hd
      rw [hv] at hd
      obtain rfl : v = d := by injection hd
      obtain ⟨_, hc2⟩ := hmc cp hp hm
      exact (hc2 v hv).1
    · intro cp hp hd
      rw [hattr0 cp hp]
      exact hd
  | step o n v cm o' _ hset ih =>
    exact set_preserves_StateOk cfg hnodup hkind hdef hmc o n v cm o' ih hset

theorem lookupA_eq_none {α : Type} (l : List (String × α)) (n : String)
    (h : ∀ p ∈ l, p.1 ≠ n) : lookupA l n = none := by
  induction l with
  | nil => rfl
  | cons hd t ih =>
    obtain ⟨k, w⟩ := hd
    rw [lookupA, if_neg (h (k, w) (List.mem_cons_self _ _))]
    exact ih fun p hp => h p (List.mem_cons_of_mem _ hp)

theorem eraseA_noop {α : Type} (l : List (String × α)) (n : String)
    (h : ∀ p ∈ l, p.1 ≠ n) : eraseA l n = l :=
  List.filter_eq_self.mpr fun p hp => by simpa using h p hp

/-- `to_pod` restricted to a suffix of the configuration points. -/
def podOf (c : Obj) (pts : List ConfigurationPoint) : List (String × Value) :=
  pts.filterMap (fun cp => (getattr c cp.name).map (fun v => (cp.name, v)))

theorem podOf_keys (c : Obj) (pts : List ConfigurationPoint) :
    ∀ p ∈ podOf c pts, ∃ cq ∈ pts, p.1 = cq.name := by
  intro p hp
  rw [podOf, List.mem_filterMap] at hp
  obtain ⟨cq, hq, hmap⟩ := hp
  rcases hg : getattr c cq.name with _ | v
  · rw [hg] at hmap; cases hmap
  · rw [hg] at hmap
    obtain rfl : (cq.name, v) = p := by simpa using hmap
    exact ⟨cq, hq, rfl⟩

theorem from_pod_fold (cname : String) (c : Obj) :
    ∀ (pts : List ConfigurationPoint) (o : Obj),
      o.name = cname →
      (pts.map ConfigurationPoint.name).Nodup →
      (∀ cp ∈ pts, ∀ v, getattr c cp.name = some v →
        cp.kind v = some v ∧
        (cp.merge = true → ∀ d, cp.default = some d → mergeConfigValues d v = v) ∧
        cp.validate_value cname v = Except.ok ()) →
      (∀ cp ∈ pts, getattr c cp.name = none → cp.default = none) →
      (∀ cp ∈ pts, getattr o cp.name = cp.default) →
      ∃ o', pts.foldlM
          (fun (st : Obj × List (String × Value)) cp =>
            match lookupA st.2 cp.name with
            | some v => do
              let o' ← cp.set_value st.1 (some v) true
              Except.ok (o', eraseA st.2 cp.name)
            | none => Except.ok st)
          (o, podOf c pts) = Except.ok (o', ([] : List (String × Value))) ∧
        o'.name = cname ∧
        (∀ cp ∈ pts, getattr o' cp.name = getattr c cp.name) ∧
        (∀ m, (∀ cp ∈ pts, cp.name ≠ m) → getattr o' m = getattr o m) := by
  intro pts
  induction pts with
  | nil =>
    intro o hname _ _ _ _
    exact ⟨o, rfl, hname, by simp, fun m _ => rfl⟩
  | cons cp rest ih =>
    intro o hname hnodup hstored hnodflt hattr
    have hcpin : cp ∈ cp :: rest := List.mem_cons_self _ _
    have hhead : cp.name ∉ rest.map ConfigurationPoint.name :=
      (List.nodup_cons.mp hnodup).1
    have hnodup' : (rest.map ConfigurationPoint.name).Nodup :=
      (List.nodup_cons.mp hnodup).2
    have hrestne : ∀ cq ∈ rest, cq.name ≠ cp.name := by
      intro cq hq hcontra
      exact hhead (hcontra ▸ List.mem_map_of_mem ConfigurationPoint.name hq)
    have hrestkeys : ∀ p ∈ podOf c rest, p.1 ≠ cp.name := by
      intro p hp
      obtain ⟨cq, hq, hpq⟩ := podOf_keys c rest p hp
      rw [hpq]
      exact hrestne cq hq
    rcases hc : getattr c cp.name with _ | v
    · -- c does not hold a value for cp: the pod lacks the key and the
      -- fresh default (necessarily None) is kept
      have hpod : podOf c (cp :: rest) = podOf c rest := by
        simp [podOf, List.filterMap_cons, hc]
      have hdnone : cp.default = none := hnodflt cp hcpin hc
      have hlook : lookupA (podOf c rest) cp.name = none :=
        lookupA_eq_none _ _ hrestkeys
      obtain ⟨o', hfold, hname', hattr', hframe'⟩ :=
        ih o hname hnodup'
          (fun cq hq => hstored cq (List.mem_cons_of_mem _ hq))
          (fun cq hq => hnodflt cq (List.mem_cons_of_mem _ hq))
          (fun cq hq => hattr cq (List.mem_cons_of_mem _ hq))
      refine ⟨o', ?_, hname', ?_, ?_⟩
      · rw [hpod, List.foldlM_cons]
        simp only [hlook]
        exact hfold
      · intro cq hq
        rcases List.mem_cons.mp hq with rfl | hqr
        · rw [hframe' cq.name (hrestne), hattr cq hcpin, hdnone, hc]
        · exact hattr' cq hqr
      · intro m hm
        exact hframe' m fun cq hq => hm cq (List.mem_cons_of_mem _ hq)
    · -- c holds v: the pod entry is set on the fresh instance and the
      -- merge with the default collapses back to v
      obtain ⟨hkv, hstab, hvalv⟩ := hstored cp hcpin v hc
      have hpod : podOf c (cp :: rest) = (cp.name, v) :: podOf c rest := by
        simp [podOf, List.filterMap_cons, hc]
      have hvalv' : cp.validate_value o.name v = Except.ok () := by
        rw [hname]; exact hvalv
      have hvv : (if cp.merge = true then mergeOpt (getattr o cp.name) v else v) = v := by
        by_cases hm : cp.merge = true
        · rw [if_pos hm, hattr cp hcpin]
          rcases hd : cp.default with _ | d
          · rfl
          · simp only [mergeOpt]
            exact hstab hm d hd
        · rw [if_neg hm]
      have hsv : cp.set_value o (some v) true = Except.ok (setattr o cp.name v) := by
        rw [cp.set_value_some_ok o v v true hkv hvalv', hvv]
      have herase : eraseA ((cp.name, v) :: podOf c rest) cp.name = podOf c rest := by
        rw [show eraseA ((cp.name, v) :: podOf c rest) cp.name =
            eraseA (podOf c rest) cp.name by simp [eraseA, List.filter_cons]]
        exact eraseA_noop _ _ hrestkeys
      have hattr1 : ∀ cq ∈ rest, getattr (setattr o cp.name v) cq.name = cq.default := by
        intro cq hq
        rw [getattr_setattr_other o cp.name cq.name v (hrestne cq hq)]
        exact hattr cq (List.mem_cons_of_mem _ hq)
      obtain ⟨o', hfold, hname', hattr', hframe'⟩ :=
        ih (setattr o cp.name v) hname hnodup'
          (fun cq hq => hstored cq (List.mem_cons_of_mem _ hq))
          (fun cq hq => hnodflt cq (List.mem_cons_of_mem _ hq))
          hattr1
      refine ⟨o', ?_, hname', ?_, ?_⟩
      · rw [hpod, List.foldlM_cons]
        have hlook : lookupA ((cp.name, v) :: podOf c rest) cp.name = some v := by
          simp [lookupA]
        simp only [hlook, hsv, Bind.bind, Except.bind, herase]
        exact hfold
      · intro cq hq
        rcases List.mem_cons.mp hq with rfl | hqr
        · rw [hframe' cq.name (hrestne), getattr_setattr_self, hc]
        · exact hattr' cq hqr
      · intro m hm
        rw [hframe' m fun cq hq => hm cq (List.mem_cons_of_mem _ hq)]
        exact getattr_setattr_other o cp.name m v (Ne.symm (hm cp hcpin))

/-- C2 (amended): for every `Configuration` state reachable through the
public lifecycle (defaults applied at construction, then mutated by
successful `set` calls) that passes `validate` — in particular no mandatory
field is missing — `from_pod (to_pod c)` succeeds and produces an
equivalent instance, *provided* the registered points have distinct names,
idempotent kind coercions, self-coercing valid defaults and merge rules
compatible with the kinds.  POD-kinded points (`str`, `integer`,
`list_of_strings`, `toggle_set`, `dict`, ... as in `WAConfiguration` and
`JobSpec`) satisfy these hypotheses; `RunConfiguration`'s
`reboot_policy` point does not — its kind wraps the value in a
`RebootPolicy` object whose re-coercion fails — and the round trip indeed
breaks there (`roundtrip_fails_on_reboot_policy`), which is what forces
the hypotheses. -/
theorem from_pod_to_pod_roundtrip (cfg : Configuration) (c : Obj)
    (hnodup : (cfg.points.map ConfigurationPoint.name).Nodup)
    (hkind : ∀ cp ∈ cfg.points, KindIdem cp)
    (hdef : ∀ cp ∈ cfg.points, DefaultOk cp cfg.cname)
    (hmc : ∀ cp ∈ cfg.points, MergeCompat cp)
    (hreach : Reaches cfg c)
    (hvalid : cfg.validate c = Except.ok ()) :
    ∃ c', cfg.from_pod (cfg.to_pod c) = Except.ok c' ∧
      ∀ cp ∈ cfg.points, getattr c' cp.name = getattr c cp.name := by
  obtain ⟨hcname, hinv, hdefsome⟩ :=
    reaches_StateOk cfg hnodup hkind hdef hmc c hreach
  obtain ⟨o0, hinit, hname0, hattr0⟩ := init_spec cfg hnodup hdef
  have hvalid2 : cfg.points.forM (fun cp => cp.validate c) = Except.ok () := hvalid
  have hval : ∀ cp ∈ cfg.points, ∀ v, getattr c cp.name = some v →
      cp.validate_value cfg.cname v = Except.ok () := by
    intro cp hp v hv
    have hcp := forM_ok_each (fun cp => cp.validate c) cfg.points hvalid2 cp hp
    unfold ConfigurationPoint.validate at hcp
    simp only at hcp
    rw [hv] at hcp
    rw [← hcname]
    exact hcp
  have hnd : ∀ cp ∈ cfg.points, getattr c cp.name = none → cp.default = none := by
    intro cp hp hnone
    rcases hd : cp.default with _ | d
    · rfl
    · exfalso
      have := hdefsome cp hp (by rw [hd]; rfl)
      rw [hnone] at this
      cases this
  obtain ⟨c', hfold, hname', hattr', _⟩ :=
    from_pod_fold cfg.cname c cfg.points o0 hname0 hnodup
      (fun cp hp v hv => ⟨(hinv cp hp v hv).1, (hinv cp hp v hv).2, hval cp hp v hv⟩)
      hnd hattr0
  have hvalidc' : cfg.validate c' = Except.ok () := by
    apply forM_ok_of_each
    intro cp hp
    have hcp := forM_ok_each (fun cp => cp.validate c) cfg.points hvalid2 cp hp
    have hsame : cp.validate c' = cp.validate c := by
      unfold ConfigurationPoint.validate
      rw [hattr' cp hp, hname', ← hcname]
    rw [hsame]
    exact hcp
  refine ⟨c', ?_, hattr'⟩
  rw [Configuration.from_pod]
  have hpod : cfg.to_pod c = podOf c cfg.points := rfl
  rw [hpod, hinit]
  simp only [Bind.bind, Except.bind] at hfold ⊢
  rw [hfold]
  simp [hvalidc']

/-!  Concrete instantiation for the round trip: a configuration in the shape
of the source's `WAConfiguration` / `RunConfiguration` (a merge-enabled list
point with a default plus a mandatory string point). -/

theorem dedup_append_of_subset {α : Type} [DecidableEq α] (x L : List α)
    (hx : ∀ a ∈ x, a ∈ L) : (x ++ L).dedup = L.dedup := by
  induction x with
  | nil => rfl
  | cons a t ih =>
    have ha : a ∈ t ++ L :=
      List.mem_append.mpr (Or.inr (hx a (List.mem_cons_self _ _)))
    rw [List.cons_append, List.dedup_cons_of_mem ha]
    exact ih fun b hb => hx b (List.mem_cons_of_mem _ hb)

theorem kindList_idem (v w : Value) (h : kindList v = some w) :
    kindList w = some w := by
  cases v <;> simp_all [kindList]
  subst h
  rfl

theorem kindStr_idem (v w : Value) (h : kindStr v = some w) :
    kindStr w = some w := by
  cases v <;> simp_all [kindStr]
  subst h
  rfl

theorem mergeCompat_cpPaths : MergeCompat cpPaths := by
  intro _
  constructor
  · intro v w hv hw
    rcases v with _ | _ | _ | lv | _ | _ | _ <;> simp [cpPaths, kindList] at hv
    rcases w with _ | _ | _ | lw | _ | _ | _ <;> simp [cpPaths, kindList] at hw
    simp [mergeConfigValues, cpPaths, kindList]
  · intro d hd
    obtain rfl : Value.list ["workloads"] = d := by simpa [cpPaths] using hd
    refine ⟨by decide, ?_⟩
    intro v w hv hstab hw
    rcases v with _ | _ | _ | lv | _ | _ | _ <;> simp [cpPaths, kindList] at hv
    rcases w with _ | _ | _ | lw | _ | _ | _ <;> simp [cpPaths, kindList] at hw
    have hstab' : (["workloads"] ++ lv).dedup = lv := by
      simpa [mergeConfigValues] using hstab
    have hsub : ∀ a ∈ (["workloads"] : List String), a ∈ lv := by
      intro a ha
      have : a ∈ (["workloads"] ++ lv).dedup :=
        List.mem_dedup.mpr (List.mem_append.mpr (Or.inl ha))
      rwa [hstab'] at this
    simp only [mergeConfigValues, Value.list.injEq]
    have hsub2 : ∀ a ∈ (["workloads"] : List String), a ∈ (lv ++ lw).dedup := by
      intro a ha
      exact List.mem_dedup.mpr (List.mem_append.mpr (Or.inl (hsub a ha)))
    rw [dedup_append_of_subset _ _ hsub2, List.dedup_idem]

theorem mergeCompat_cpDevice : MergeCompat cpDevice := fun h =>
  Bool.noConfusion h

/-- The concrete two-point configuration used to witness the round trip. -/
def cfgW : Configuration :=
  ⟨"WA Configuration", [cpPaths, cpDevice]⟩

/-- The state after construction. -/
def objW0 : Obj :=
  ⟨"WA Configuration", [("plugin_paths", Value.list ["workloads"])]⟩

/-- The state after `set("plugin_paths", ["deps"])` (merged). -/
def objW1 : Obj :=
  ⟨"WA Configuration", [("plugin_paths", Value.list ["workloads", "deps"])]⟩

/-- The state after additionally `set("device", "juno")`. -/
def objW : Obj :=
  ⟨"WA Configuration",
   [("plugin_paths", Value.list ["workloads", "deps"]), ("device", Value.str "juno")]⟩

theorem reaches_objW : Reaches cfgW objW :=
  Reaches.step objW1 "device" (some (Value.str "juno")) true objW
    (Reaches.step objW0 "plugin_paths" (some (Value.list ["deps"])) true objW1
      (Reaches.init objW0 rfl) rfl)
    rfl

/-- Witness for C2 at the concrete configuration and the reachable,
validated state `objW`. -/
theorem from_pod_to_pod_roundtrip_witness :
    ∃ c', cfgW.from_pod (cfgW.to_pod objW) = Except.ok c' ∧
      ∀ cp ∈ cfgW.points, getattr c' cp.name = getattr objW cp.name :=
  from_pod_to_pod_roundtrip cfgW objW
    (by decide)
    (by
      intro cp hcp
      rcases List.mem_cons.mp hcp with rfl | hcp2
      · exact fun v w h => kindList_idem v w h
      · rcases List.mem_cons.mp hcp2 with rfl | hcp3
        · exact fun v w h => kindStr_idem v w h
        · cases hcp3)
    (by
      intro cp hcp
      rcases List.mem_cons.mp hcp with rfl | hcp2
      · intro d hd
        obtain rfl : Value.list ["workloads"] = d := by simpa [cpPaths] using hd
        exact ⟨rfl, rfl⟩
      · rcases List.mem_cons.mp hcp2 with rfl | hcp3
        · intro d hd
          exact absurd hd (by simp [cpDevice])
        · cases hcp3)
    (by
      intro cp hcp
      rcases List.mem_cons.mp hcp with rfl | hcp2
      · exact mergeCompat_cpPaths
      · rcases List.mem_cons.mp hcp2 with rfl | hcp3
        · exact mergeCompat_cpDevice
        · cases hcp3)
    reaches_objW
    rfl

/-!  The universal round-trip claim fails on the source: `RunConfiguration`
registers `reboot_policy` with `kind=RebootPolicy` (configuration.py line
697), and re-coercing the stored `RebootPolicy` object in `from_pod` makes
`RebootPolicy.__init__` evaluate `policy.strip()` (line 71) on a
`RebootPolicy` instance — an `AttributeError` that `set_value`'s
`except (ValueError, TypeError)` does not catch.  The point is embedded
below and the failure exhibited on a concrete valid instance. -/

/-- `RebootPolicy.valid_policies` (configuration.py line 68). -/
def valid_policies : List String :=
  ["never", "as_needed", "initial", "each_spec", "each_iteration"]

/-- `RebootPolicy` used as a kind (configuration.py lines 70-75, called from
`set_value` line 269): a valid policy string yields a `RebootPolicy` object.
The `strip().lower().replace(' ', '_')` normalisation is the identity on the
canonical policy strings used here and is elided.  Any non-string argument —
in particular a `RebootPolicy` object flowing back through `from_pod` —
makes `__init__` fail on `policy.strip()`; this embedding, whose kinds
signal every coercion failure the same way, models that as a failed
coercion (in the source it is an uncaught `AttributeError` rather than a
`ConfigError`; either way `from_pod` does not return an instance). -/
def kindRebootPolicy : Value → Option Value
  | Value.str s =>
    if valid_policies.contains s then some (Value.rebootPolicy s) else none
  | _ => none

/-- The `reboot_policy` configuration point of `RunConfiguration`
(configuration.py lines 697-713): kind `RebootPolicy`, default
`'as_needed'`, `allowed_values=RebootPolicy.valid_policies`.  Because
`RebootPolicy.__cmp__` (lines 98-102) compares a `RebootPolicy` object
equal to its policy string, membership in `allowed_values` accepts both the
string and the object form of each policy. -/
def cpRebootPolicy : ConfigurationPoint :=
  { name := "reboot_policy", kind := kindRebootPolicy,
    kindName := "RebootPolicy", mandatory := false,
    default := some (Value.str "as_needed"),
    allowed_values := some (valid_policies.map Value.str ++
      valid_policies.map Value.rebootPolicy),
    constraint := none, merge := false, aliases := [], global_alias := none }

/-- A two-point configuration in the shape of `RunConfiguration`:
`reboot_policy` plus the mandatory `device`. -/
def cfgRun : Configuration :=
  ⟨"Run Configuration", [cpRebootPolicy, cpDevice]⟩

/-- `cfgRun` after construction: the default is stored uncoerced, as a
string. -/
def objR0 : Obj :=
  ⟨"Run Configuration", [("reboot_policy", Value.str "as_needed")]⟩

/-- ... after `set("reboot_policy", "initial")`: the kind has wrapped the
value in a `RebootPolicy` object. -/
def objR1 : Obj :=
  ⟨"Run Configuration", [("reboot_policy", Value.rebootPolicy "initial")]⟩

/-- ... after additionally `set("device", "juno")`: a valid instance with
no mandatory field missing. -/
def cRun : Obj :=
  ⟨"Run Configuration",
   [("reboot_policy", Value.rebootPolicy "initial"), ("device", Value.str "juno")]⟩

/-- C2 counterexample: the claim as stated is false on the code.  `cRun` is
a valid `RunConfiguration`-shaped instance — reachable through the
lifecycle, passing `validate`, with its mandatory `device` field set — yet
`from_pod (to_pod cRun)` fails instead of reproducing an equivalent
instance: `to_pod` emits the stored `RebootPolicy` object and `from_pod`
re-coerces it through `RebootPolicy`, which cannot accept its own output. -/
theorem roundtrip_fails_on_reboot_policy :
    Reaches cfgRun cRun ∧
    cfgRun.validate cRun = Except.ok () ∧
    (∀ cp ∈ cfgRun.points, cp.mandatory = true → (getattr cRun cp.name).isSome) ∧
    cfgRun.from_pod (cfgRun.to_pod cRun) =
      Except.error (CErr.badValue "reboot_policy") := by
  refine ⟨?_, rfl, ?_, rfl⟩
  · exact Reaches.step objR1 "device" (some (Value.str "juno")) true cRun
      (Reaches.step objR0 "reboot_policy" (some (Value.str "initial")) true objR1
        (Reaches.init objR0 rfl) rfl)
      rfl
  · decide

end WA
